import Mathlib

/-!
# Verification of the csv-to-qb-iif ingestion/normalization/export core

Shallow embedding of the JavaScript source (src/server.js, src/importer.js,
src/exporter.js, src/database.js) into Lean 4.  JavaScript numbers are
modelled as rationals (`ℚ`); `Math.round(x*100)/100` becomes an exact
rational half-up rounding to two decimals.  External library calls
(`dayjs` date parsing/arithmetic, `csv-parse`, `md5`) are passed in as
function parameters of the embedded definitions, so every theorem
quantifies over the behaviour of those collaborators.  Stateful database
code becomes explicit state passing over list-modelled tables.
-/

namespace CsvToQb

/-! ## JavaScript primitives -/

/-- A parsed CSV row: association list from header name to cell text, in
header order (mirrors a JS object produced by `csv-parse` with
`columns: true`).  A missing key models a JS `undefined` field. -/
abbrev Row := List (String × String)

/-- Exact-key row access, `row[k]`: first binding wins (JS object keys are
unique; for the association-list model we take the first). -/
def rowGet (r : Row) (k : String) : Option String :=
  (r.find? (fun p => p.1 = k)).map Prod.snd

/-- JS truthiness of an optional string cell: `undefined`, `null` and the
empty string are falsy; every other string is truthy. -/
def truthy : Option String → Bool
  | none => false
  | some s => s ≠ ""

/-- JS `a || b` over optional string cells: keeps `a` when truthy,
otherwise yields `b`. -/
def jsOr (a b : Option String) : Option String :=
  if truthy a then a else b

/-- `Math.round`: round half toward +∞ (JS semantics), exactly on `ℚ`. -/
def jsMathRound (x : ℚ) : ℤ := Int.floor (x + 1/2)

/-- `Math.round(x * 100) / 100` — round to two decimal places. -/
def round2 (x : ℚ) : ℚ := (jsMathRound (x * 100) : ℚ) / 100

/-- The character filter `String(v).replace(/[^0-9.-]/g, '')` keeps only
digits, `.` and `-`. -/
def numericFilter (s : String) : List Char :=
  s.toList.filter (fun c => c.isDigit || c = '.' || c = '-')

/-- Value of a digit string (most significant first). -/
def digitsVal (ds : List Char) : ℕ :=
  ds.foldl (fun acc c => 10 * acc + (c.toNat - '0'.toNat)) 0

/-- JS `Number()` on a string made only of digits, `.` and `-`
(the alphabet left by `numericFilter`), as a scaled integer: the result
`(m, k)` denotes the exact rational `m / 10^k`.  The empty string is `0`;
a valid decimal literal `[-] digits [. digits]` (with at least one digit
overall) is its exact value; anything else is `NaN`, modelled as `none`.
Computed over `ℤ × ℕ` so that concrete inputs evaluate by `decide`. -/
def jsNumberScaled (cs : List Char) : Option (ℤ × ℕ) :=
  if cs = [] then some (0, 0) else
  let signRest : ℤ × List Char := match cs with
    | '-' :: t => (-1, t)
    | t => (1, t)
  let sign := signRest.1
  let rest := signRest.2
  let intPart := rest.takeWhile Char.isDigit
  let rest2 := rest.drop intPart.length
  match rest2 with
  | [] => if intPart.isEmpty then none else some (sign * digitsVal intPart, 0)
  | '.' :: frac =>
      if frac.all Char.isDigit && (!intPart.isEmpty || !frac.isEmpty) then
        some (sign * ((digitsVal intPart : ℤ) * (10 : ℤ) ^ frac.length
          + digitsVal frac), frac.length)
      else none
  | _ => none

/-- The rational value of a JS `Number()` result. -/
def jsNumber (cs : List Char) : Option ℚ :=
  (jsNumberScaled cs).map (fun p => (p.1 : ℚ) / (10 : ℚ) ^ p.2)

/-- `parseNumber` from src/importer.js (and the equivalent
`Number((v||'').replace(/[^0-9.-]/g,'')) || 0` idiom in src/server.js):
`null`/`undefined` and `NaN` results collapse to `0`. -/
def parseNumber (v : Option String) : ℚ :=
  match v with
  | none => 0
  | some s =>
      match jsNumber (numericFilter s) with
      | none => 0
      | some q => q

/-- Evaluation helper: a successful scaled parse gives the exact value. -/
theorem parseNumber_eval (s : String) (m : ℤ) (k : ℕ)
    (h : jsNumberScaled (numericFilter s) = some (m, k)) :
    parseNumber (some s) = (m : ℚ) / (10 : ℚ) ^ k := by
  simp [parseNumber, jsNumber, h]

/-- Evaluation helper: a failed (`NaN`) parse collapses to `0`. -/
theorem parseNumber_nan (s : String)
    (h : jsNumberScaled (numericFilter s) = none) :
    parseNumber (some s) = 0 := by
  simp [parseNumber, jsNumber, h]

/-- `sanitize` from src/server.js: replace tab/CR/LF with a space and
strip double quotes. -/
def sanitize (v : Option String) : String :=
  match v with
  | none => ""
  | some s =>
      ⟨(s.toList.map (fun c =>
          if c = '\t' ∨ c = '\r' ∨ c = '\n' then ' ' else c)).filter
        (fun c => c ≠ '"')⟩

/-- ASCII lowering of a string, modelling `String.prototype.toLowerCase`
on the ASCII header/terms text this program manipulates. -/
def jsToLower (s : String) : String := ⟨s.toList.map Char.toLower⟩

/-- The whitespace class of the JS regex `\s`, restricted to the ASCII
characters that can occur in this program's inputs. -/
def isJsSpace (c : Char) : Bool :=
  c = ' ' ∨ c = '\t' ∨ c = '\n' ∨ c = '\r' ∨ c = '\x0b' ∨ c = '\x0c'

/-! ## `computeDueDate` (src/server.js lines 54–64)

The regex is `/^net\s+(\d{1,3})/` applied to the lowercased terms; on a
match the program adds `Number(match[1])` days to the bill date parsed as
`MM/DD/YYYY`.  The `dayjs` date backend is abstracted as a parse function
and an add-days-then-format function. -/

/-- Strip a leading `net` followed by at least one whitespace character;
return the remainder.  Shared helper of the code's regex and of the
spec-worded matcher. -/
def afterNetWs (cs : List Char) : Option (List Char) :=
  match cs with
  | 'n' :: 'e' :: 't' :: rest =>
      let ws := rest.takeWhile isJsSpace
      if ws = [] then none else some (rest.drop ws.length)
  | _ => none

/-- The code's regex `^net\s+(\d{1,3})` on an already-lowercased string:
the capture is the first one-to-three digits (greedy), requiring at least
one digit. -/
def netMatch (t : String) : Option ℕ :=
  (afterNetWs t.toList).bind (fun rest =>
    let ds := rest.takeWhile Char.isDigit
    if ds = [] then none else some (digitsVal (ds.take 3)))

/-- Modelled from the spec: a "leading `Net N` token" — `net`,
whitespace, then the full maximal digit run `N`.  Used to state claim C7
in the spec's own words and compare it with the code's `netMatch`. -/
def specNetRun (t : String) : Option (List Char) :=
  (afterNetWs (jsToLower t).toList).bind (fun rest =>
    let ds := rest.takeWhile Char.isDigit
    if ds = [] then none else some ds)

/-- `computeDueDate(dateStr, terms)`.  `parse` models
`dayjs(dateStr, 'MM/DD/YYYY')` returning `none` when invalid; `addFmt d n`
models `d.add(n, 'day').format('MM/DD/YYYY')`. -/
def computeDueDate {D : Type} (parse : String → Option D)
    (addFmt : D → ℕ → String) (dateStr terms : String) : String :=
  if dateStr = "" then "" else
  match netMatch (jsToLower terms) with
  | some n =>
      match parse dateStr with
      | some d => addFmt d n
      | none => dateStr
  | none => dateStr

/-- The code's regex result is the spec's maximal digit run truncated to
its first three digits. -/
theorem netMatch_eq_specNetRun (terms : String) :
    netMatch (jsToLower terms) =
      (specNetRun terms).map (fun ds => digitsVal (ds.take 3)) := by
  unfold netMatch specNetRun
  cases h : afterNetWs (jsToLower terms).toList with
  | none => simp [h]
  | some rest =>
      simp only [h, Option.some_bind]
      by_cases hds : rest.takeWhile Char.isDigit = ([] : List Char)
      · rw [if_pos hds, if_pos hds]
        rfl
      · rw [if_neg hds, if_neg hds]
        rfl

/-- A concrete `dayjs` stand-in for witnesses and counterexamples: the
only valid date string is `01/02/2024`, parsed to day number `0`. -/
def demoParse : String → Option ℕ :=
  fun s => if s = "01/02/2024" then some 0 else none

/-- A concrete add-and-format stand-in: records the day count reached. -/
def demoAdd : ℕ → ℕ → String :=
  fun d n => "+" ++ toString (d + n)

/-- C7 (counterexample): for terms `"Net 1234"` the spec's leading
`Net N` token has `N = 1234`, but `computeDueDate` adds only `123` days —
the regex `\d{1,3}` truncates the digit run — so the due date is neither
`bill_date + N days` nor the bill date itself. -/
theorem computeDueDate_netN_claim_false :
    specNetRun "Net 1234" = some ['1', '2', '3', '4'] ∧
    computeDueDate demoParse demoAdd "01/02/2024" "Net 1234" = demoAdd 0 123 ∧
    demoAdd 0 123 ≠ demoAdd 0 1234 ∧
    computeDueDate demoParse demoAdd "01/02/2024" "Net 1234" ≠ "01/02/2024" := by
  refine ⟨by decide, by decide, by decide, by decide⟩

/-- C7 (amended): for every valid bill date, if the Terms string carries a
leading `Net` token with digit run `ds` then the due date is the bill date
plus `value (ds.take 3)` days (the regex `\d{1,3}` reads at most the first
three digits); for any Terms without such a token the due date equals the
bill date. -/
theorem computeDueDate_net_parsing {D : Type} (parse : String → Option D)
    (addFmt : D → ℕ → String) (dateStr terms : String) (d : D)
    (hne : dateStr ≠ "") (hp : parse dateStr = some d) :
    (∀ ds, specNetRun terms = some ds →
      computeDueDate parse addFmt dateStr terms =
        addFmt d (digitsVal (ds.take 3))) ∧
    (specNetRun terms = none →
      computeDueDate parse addFmt dateStr terms = dateStr) := by
  unfold computeDueDate
  rw [netMatch_eq_specNetRun]
  constructor
  · intro ds hds
    simp [hds, hne, hp]
  · intro hds
    simp [hds, hne]

/-- C7 witness: the amended theorem applied at terms `"Net 30"` over the
concrete demo date backend. -/
theorem computeDueDate_net_parsing_witness :
    computeDueDate demoParse demoAdd "01/02/2024" "Net 30" = demoAdd 0 30 := by
  have h := (computeDueDate_net_parsing demoParse demoAdd "01/02/2024" "Net 30" 0
    (by decide) (by decide)).1 ['3', '0'] (by decide)
  simpa using h

/-! ## `detectCsvType` (src/server.js lines 141–187) -/

/-- Is `sub` a contiguous run of `l`? -/
def infixAt (sub : List Char) : List Char → Bool
  | [] => sub.isEmpty
  | c :: t => sub.isPrefixOf (c :: t) || infixAt sub t

/-- Substring test, modelling `String.prototype.includes`. -/
def strIncludes (s sub : String) : Bool :=
  infixAt sub.toList s.toList

/-- `String.prototype.trim` for the whitespace this program encounters. -/
def jsTrim (s : String) : String :=
  ⟨((s.toList.dropWhile isJsSpace).reverse.dropWhile isJsSpace).reverse⟩

/-- `getHeadersLower`: header names of the first row, trimmed then
lowercased (`String(h).trim().toLowerCase()`). -/
def getHeadersLower (rows : List Row) : List String :=
  match rows with
  | [] => []
  | r :: _ => r.map (fun p => jsToLower (jsTrim p.1))

/-- The closed result set of the classifier. -/
inductive CsvType where
  | po_bills | bank_batch | halo_invoices | stripe_csv | bank_generic | unknown
  deriving DecidableEq, Repr

/-- Rule 1: an explicit `po_id` column. -/
def rulePoId (h : List String) : Bool := h.contains "po_id"

/-- Rule 2: FNBPA batch summary headers. -/
def ruleBankBatch (h : List String) : Bool :=
  (["batch number", "transfer description", "effective date"].all h.contains)
    && (["dr amount", "cr amount"].any h.contains)

def invoiceNumberSyn : List String :=
  ["invoice number", "invoice no", "invoice #", "inv", "invoice", "document number"]

def invoiceIdSyn : List String := ["invoiceid", "invoice id", "id"]

def invDateSyn : List String := ["invoice date", "date", "invoicedate"]

def customerSyn : List String :=
  ["customer", "customer name", "account name", "client", "client name"]

def amountsSyn : List String := ["total", "amount due", "balance", "subtotal"]

/-- Rule 3: Halo invoices export (header synonyms or an `invoice` filename). -/
def ruleHalo (h : List String) (fnameLower : String) : Bool :=
  (invoiceNumberSyn.any h.contains) || (invoiceIdSyn.any h.contains)
    || ((customerSyn.any h.contains) && (invDateSyn.any h.contains)
        && (amountsSyn.any h.contains))
    || strIncludes fnameLower "invoice"

/-- Rule 4: Stripe CSV heuristic. -/
def ruleStripe (h : List String) : Bool :=
  (["balance transaction id", "type"].any h.contains)
    && (["amount", "net"].any h.contains)

def vendorSyn : List String := ["vendor", "supplier", "vendor name"]

def refSyn : List String :=
  ["refnumber", "ref number", "reference", "reference number", "docnum",
   "document number"]

/-- Item synonyms of the classifier's rule 5 (note: this list, unlike the
one used by `parseBillsFromCsv`, also accepts `description`). -/
def itemSynDetect : List String :=
  ["item", "item code", "sku", "product", "product code", "description"]

def qtySyn : List String := ["qty", "quantity", "qnty"]

def costSyn : List String := ["cost", "unit cost", "price", "unit price", "rate"]

/-- Rule 5: generic PO-bill fallback — all five synonym roles present. -/
def rulePoFallback (h : List String) : Bool :=
  (vendorSyn.any h.contains) && (refSyn.any h.contains)
    && (itemSynDetect.any h.contains) && (qtySyn.any h.contains)
    && (costSyn.any h.contains)

/-- Rule 6: generic bank CSV. -/
def ruleBankGeneric (h : List String) : Bool :=
  (["date", "posting date", "transaction date"].any h.contains)
    && (["amount", "credit", "debit"].any h.contains)
    && (["description", "memo", "details"].any h.contains)

/-- `detectCsvType(rows, filename)`: the ordered heuristic cascade. -/
def detectCsvType (rows : List Row) (filename : String) : CsvType :=
  let h := getHeadersLower rows
  let fname := jsToLower filename
  if rulePoId h then .po_bills
  else if ruleBankBatch h then .bank_batch
  else if ruleHalo h fname then .halo_invoices
  else if ruleStripe h then .stripe_csv
  else if rulePoFallback h then .po_bills
  else if ruleBankGeneric h then .bank_generic
  else .unknown

/-- C5: the classifier's rules fire in fixed priority order (first match
wins), and on a header set matching none of rules 1–4 the result is
`po_bills` exactly when a vendor, reference, item, quantity and cost
synonym are all present. -/
theorem detectCsvType_priority_and_po_fallback (rows : List Row)
    (filename : String) :
    (rulePoId (getHeadersLower rows) = true →
      detectCsvType rows filename = .po_bills) ∧
    (rulePoId (getHeadersLower rows) = false →
      ruleBankBatch (getHeadersLower rows) = true →
      detectCsvType rows filename = .bank_batch) ∧
    (rulePoId (getHeadersLower rows) = false →
      ruleBankBatch (getHeadersLower rows) = false →
      ruleHalo (getHeadersLower rows) (jsToLower filename) = true →
      detectCsvType rows filename = .halo_invoices) ∧
    (rulePoId (getHeadersLower rows) = false →
      ruleBankBatch (getHeadersLower rows) = false →
      ruleHalo (getHeadersLower rows) (jsToLower filename) = false →
      ruleStripe (getHeadersLower rows) = true →
      detectCsvType rows filename = .stripe_csv) ∧
    (rulePoId (getHeadersLower rows) = false →
      ruleBankBatch (getHeadersLower rows) = false →
      ruleHalo (getHeadersLower rows) (jsToLower filename) = false →
      ruleStripe (getHeadersLower rows) = false →
      (detectCsvType rows filename = .po_bills ↔
        rulePoFallback (getHeadersLower rows) = true)) := by
  refine ⟨?_, ?_, ?_, ?_, ?_⟩
  · intro h1
    simp [detectCsvType, h1]
  · intro h1 h2
    simp [detectCsvType, h1, h2]
  · intro h1 h2 h3
    simp [detectCsvType, h1, h2, h3]
  · intro h1 h2 h3 h4
    simp [detectCsvType, h1, h2, h3, h4]
  · intro h1 h2 h3 h4
    by_cases h5 : rulePoFallback (getHeadersLower rows) = true
    · simp [detectCsvType, h1, h2, h3, h4, h5]
    · simp only [Bool.not_eq_true] at h5
      constructor
      · intro hdet
        exfalso
        by_cases h6 : ruleBankGeneric (getHeadersLower rows) = true <;>
          simp [detectCsvType, h1, h2, h3, h4, h5, h6] at hdet
      · intro hc
        rw [hc] at h5
        cases h5

/-- A one-row table whose headers satisfy only the generic PO-bill rule. -/
def demoPoRows : List Row :=
  [[("Vendor", "Acme"), ("RefNumber", "PO-1"), ("Date", "01/05/2024"),
    ("Item", "Widget"), ("Qty", "10"), ("Cost", "2.50")]]

/-- C5 witness: the priority theorem applied to a concrete PO-style header
set that fails rules 1–4. -/
theorem detectCsvType_priority_witness :
    detectCsvType demoPoRows "po.csv" = .po_bills := by
  exact ((detectCsvType_priority_and_po_fallback demoPoRows "po.csv").2.2.2.2
    (by decide) (by decide) (by decide) (by decide)).mpr (by decide)

/-! ## `importBankFile` row normalization (src/importer.js lines 101–151)

Each parsed row yields candidate bank transactions.  The `md5` row
checksum is abstracted as a function of the row (plus, in batch mode, the
CR/DR side tag); the `new Date` conversion is abstracted by keeping the
raw date cell (`none` = "now"). -/

/-- `a || dflt` when the chain must end in a plain string default. -/
def jsOrStr (a : Option String) (dflt : String) : String :=
  match a with
  | some s => if s ≠ "" then s else dflt
  | none => dflt

/-- A candidate bank transaction as built by the importer before the
database insert. -/
structure BankTxnCand where
  external_id : Option String
  txn_date : Option String
  amount : ℚ
  currency : String
  description : String
  memo : String
  balance_after : Option ℚ
  checksum : String
  deriving DecidableEq, Repr

/-- `parseNumber(r['DR Amount'] || r['dr amount'])`. -/
def batchDr (r : Row) : ℚ :=
  parseNumber (jsOr (rowGet r "DR Amount") (rowGet r "dr amount"))

/-- `parseNumber(r['CR Amount'] || r['cr amount'])`. -/
def batchCr (r : Row) : ℚ :=
  parseNumber (jsOr (rowGet r "CR Amount") (rowGet r "cr amount"))

/-- `r['Reference Number'] || r['reference number'] || ''`. -/
def batchRef (r : Row) : String :=
  jsOrStr (jsOr (rowGet r "Reference Number") (rowGet r "reference number")) ""

/-- One `bank_batch` row: a positive credit amount yields a positive
transaction suffixed `-CR`, then a positive debit amount yields a negative
transaction (`-Math.abs(dr)`) suffixed `-DR`. -/
def batchRowTxns (hashB : Row → String → String) (r : Row) : List BankTxnCand :=
  let effective := jsOr (rowGet r "Effective Date") (jsOr (rowGet r "effective date")
    (jsOr (rowGet r "Date") (rowGet r "date")))
  let transferDesc := jsOrStr (jsOr (rowGet r "Transfer Description")
    (rowGet r "transfer description")) ""
  let company := jsOrStr (jsOr (rowGet r "Company Name") (rowGet r "company name")) ""
  let batchType := jsOrStr (jsOr (rowGet r "Batch Type") (rowGet r "batch type")) ""
  let sec := jsOrStr (jsOr (rowGet r "SEC Code") (rowGet r "sec code")) ""
  let itemCount := jsOrStr (jsOr (rowGet r "Item Count") (rowGet r "item count")) ""
  let status := jsOrStr (jsOr (rowGet r "Batch Status") (rowGet r "batch status")) ""
  let ref := batchRef r
  let dr := batchDr r
  let cr := batchCr r
  let baseDesc := jsTrim transferDesc
  let memoBase := "Company: " ++ company ++ " | SEC: " ++ sec ++ " | Items: "
    ++ itemCount ++ " | Status: " ++ status ++ " | Type: " ++ batchType
  let txnDate := if truthy effective then effective else none
  (if 0 < cr then
    [{ external_id := if ref ≠ "" then some (ref ++ "-CR") else none,
       txn_date := txnDate, amount := cr, currency := "USD",
       description := baseDesc ++ " • CR", memo := memoBase,
       balance_after := none, checksum := hashB r "CR" }]
   else []) ++
  (if 0 < dr then
    [{ external_id := if ref ≠ "" then some (ref ++ "-DR") else none,
       txn_date := txnDate, amount := -|dr|, currency := "USD",
       description := baseDesc ++ " • DR", memo := memoBase,
       balance_after := none, checksum := hashB r "DR" }]
   else [])

/-- All transactions of a `bank_batch` file, row by row. -/
def bankBatchFileTxns (hashB : Row → String → String) (rows : List Row) :
    List BankTxnCand :=
  (rows.map (batchRowTxns hashB)).flatten

/-- C4: a batch row with parsed `DR Amount` 50 and `CR Amount` 0 yields
exactly one transaction, amount `-50`, external id `<ref>-DR`; a row with
`DR` 50 and `CR` 30 yields exactly the credit (positive, `-CR`) then the
debit (negative, `-DR`); a row with neither side positive yields nothing.
(The `<ref>-` external ids presuppose a non-empty reference; the code
stores `null` when the reference cell is empty.) -/
theorem batch_row_splitting (hashB : Row → String → String) (r : Row) :
    (batchDr r = 50 → batchCr r = 0 → batchRef r ≠ "" →
      (batchRowTxns hashB r).map (fun t => (t.amount, t.external_id)) =
        [((-50 : ℚ), some (batchRef r ++ "-DR"))]) ∧
    (batchDr r = 50 → batchCr r = 30 → batchRef r ≠ "" →
      (batchRowTxns hashB r).map (fun t => (t.amount, t.external_id)) =
        [((30 : ℚ), some (batchRef r ++ "-CR")),
         ((-50 : ℚ), some (batchRef r ++ "-DR"))] ∧
      (0 : ℚ) < 30 ∧ (-50 : ℚ) < 0) ∧
    (batchDr r ≤ 0 → batchCr r ≤ 0 → batchRowTxns hashB r = []) := by
  have habs : |(50 : ℚ)| = 50 := by norm_num
  have h50 : (0 : ℚ) < 50 := by norm_num
  have h30 : (0 : ℚ) < 30 := by norm_num
  refine ⟨?_, ?_, ?_⟩
  · intro hdr hcr href
    simp [batchRowTxns, hdr, hcr, href, h50, habs]
  · intro hdr hcr href
    refine ⟨?_, by norm_num, by norm_num⟩
    simp [batchRowTxns, hdr, hcr, href, h50, h30, habs]
  · intro hdr hcr
    have hdr' : ¬ (0 : ℚ) < batchDr r := not_lt.mpr hdr
    have hcr' : ¬ (0 : ℚ) < batchCr r := not_lt.mpr hcr
    simp [batchRowTxns, hdr', hcr']

/-- An opaque stand-in for the row-checksum hash in witnesses. -/
def demoHashB : Row → String → String := fun _ tag => "ck-" ++ tag

/-- A concrete FNBPA batch row carrying both a credit and a debit. -/
def demoBatchRow : Row :=
  [("Reference Number", "RF1"), ("DR Amount", "50"), ("CR Amount", "30"),
   ("Effective Date", "01/02/2024")]

/-- C4 witness: the splitting theorem applied to a concrete batch row
carrying both a credit and a debit amount. -/
theorem batch_row_splitting_witness :
    (batchRowTxns demoHashB demoBatchRow).map
      (fun t => (t.amount, t.external_id)) =
      [((30 : ℚ), some "RF1-CR"), ((-50 : ℚ), some "RF1-DR")] := by
  have hdr : batchDr demoBatchRow = 50 := by
    have h : jsOr (rowGet demoBatchRow "DR Amount")
        (rowGet demoBatchRow "dr amount") = some "50" := by decide
    rw [batchDr, h, parseNumber_eval "50" 50 0 (by decide)]
    norm_num
  have hcr : batchCr demoBatchRow = 30 := by
    have h : jsOr (rowGet demoBatchRow "CR Amount")
        (rowGet demoBatchRow "cr amount") = some "30" := by decide
    rw [batchCr, h, parseNumber_eval "30" 30 0 (by decide)]
    norm_num
  have h := ((batch_row_splitting demoHashB demoBatchRow).2.1 hdr hcr
    (by decide)).1
  have hrf : batchRef demoBatchRow = "RF1" := by decide
  rw [h, hrf]
  decide

/-- The resolved amount of a `bank_generic` row.  The source computes
`parseNumber(r['Amount'] || r['Credit'] || `-${Math.abs(parseNumber(r['Debit']))}`)`
when any of the three cells is truthy, else `parseNumber(r['amount'])`
(lowercase key).  The template string `-${Math.abs(x)}` re-parses to
exactly `-|x|` (canonical JS number formatting round-trips through
`Number`), which is how that composite is embedded here. -/
def genericResolvedAmount (r : Row) : ℚ :=
  let a := rowGet r "Amount"
  let c := rowGet r "Credit"
  let d := rowGet r "Debit"
  if truthy a then parseNumber a
  else if truthy c then parseNumber c
  else if truthy d then -|parseNumber d|
  else parseNumber (rowGet r "amount")

/-- One `bank_generic` row: dropped without error when the resolved
amount is zero (or `NaN`), otherwise a single transaction. -/
def genericRowTxns (hashG : Row → String) (r : Row) : List BankTxnCand :=
  let date := jsOr (rowGet r "Date") (jsOr (rowGet r "Transaction Date")
    (jsOr (rowGet r "Posting Date") (rowGet r "TxnDate")))
  let desc := jsOrStr (jsOr (rowGet r "Description")
    (jsOr (rowGet r "Memo") (rowGet r "Details"))) ""
  let memo := jsOrStr (jsOr (rowGet r "Memo") (rowGet r "Notes")) ""
  let balance := jsOr (rowGet r "Balance") (rowGet r "Running Balance")
  let parsedAmt := genericResolvedAmount r
  if parsedAmt = 0 then []
  else
    [{ external_id := jsOr (rowGet r "Transaction ID") (jsOr (rowGet r "ID") none),
       txn_date := if truthy date then date else none,
       amount := parsedAmt, currency := "USD",
       description := jsTrim desc, memo := jsTrim memo,
       balance_after := if truthy balance then some (parseNumber balance) else none,
       checksum := hashG r }]

/-- All transactions of a `bank_generic` file, row by row. -/
def bankGenericFileTxns (hashG : Row → String) (rows : List Row) :
    List BankTxnCand :=
  (rows.map (genericRowTxns hashG)).flatten

/-- An opaque stand-in for the generic-row checksum hash in witnesses. -/
def demoHashG : Row → String := fun _ => "ck"

/-- A generic bank row whose only amount cell is a negative Debit. -/
def demoDebitRow : Row :=
  [("Date", "01/02/2024"), ("Description", "refund"), ("Debit", "-50")]

/-- C8 (counterexample): a `bank_generic` row with `Debit = "-50"` (and no
Amount/Credit) is emitted with amount `-50 = -|parseNumber "-50"|`, not
the claim's "negation of the parsed Debit column" `+50`: the code negates
the absolute value, so already-negative debit cells keep their sign. -/
theorem bank_generic_amount_claim_false :
    (genericRowTxns demoHashG demoDebitRow).map (fun t => t.amount) =
      [(-50 : ℚ)] ∧
    -(parseNumber (rowGet demoDebitRow "Debit")) = (50 : ℚ) ∧
    ((-50 : ℚ) ≠ 50) := by
  have hd : rowGet demoDebitRow "Debit" = some "-50" := by decide
  have hp : parseNumber (some "-50") = -50 := by
    rw [parseNumber_eval "-50" (-50) 0 (by decide)]
    norm_num
  refine ⟨?_, ?_, by norm_num⟩
  · have hres : genericResolvedAmount demoDebitRow = -50 := by
      have h1 : truthy (rowGet demoDebitRow "Amount") = false := by decide
      have h2 : truthy (rowGet demoDebitRow "Credit") = false := by decide
      have h3 : truthy (rowGet demoDebitRow "Debit") = true := by decide
      have h4 : truthy (some "-50") = true := by decide
      simp [genericResolvedAmount, h1, h2, h3, hd, h4, hp]
    have hne : genericResolvedAmount demoDebitRow ≠ 0 := by
      rw [hres]; norm_num
    simp [genericRowTxns, hne, hres]
  · rw [hd, hp]; norm_num

/-- C8 (amended): for every `bank_generic` row with at least one of the
`Amount`/`Credit`/`Debit` cells non-empty, the emitted amount is the
parsed `Amount` when that cell is non-empty, else the parsed `Credit`
when non-empty, else the *negated absolute value* of the parsed `Debit`;
a row whose resolved amount is exactly zero yields no transaction (and no
error — the row is skipped). -/
theorem bank_generic_amount_resolution (hashG : Row → String) (r : Row)
    (hany : (truthy (rowGet r "Amount") || truthy (rowGet r "Credit")
      || truthy (rowGet r "Debit")) = true) :
    (truthy (rowGet r "Amount") = true →
      genericResolvedAmount r = parseNumber (rowGet r "Amount")) ∧
    (truthy (rowGet r "Amount") = false → truthy (rowGet r "Credit") = true →
      genericResolvedAmount r = parseNumber (rowGet r "Credit")) ∧
    (truthy (rowGet r "Amount") = false → truthy (rowGet r "Credit") = false →
      genericResolvedAmount r = -|parseNumber (rowGet r "Debit")|) ∧
    (genericResolvedAmount r = 0 → genericRowTxns hashG r = []) ∧
    (genericResolvedAmount r ≠ 0 →
      (genericRowTxns hashG r).map (fun t => t.amount) =
        [genericResolvedAmount r]) := by
  refine ⟨?_, ?_, ?_, ?_, ?_⟩
  · intro h1
    simp [genericResolvedAmount, h1]
  · intro h1 h2
    simp [genericResolvedAmount, h1, h2]
  · intro h1 h2
    have h3 : truthy (rowGet r "Debit") = true := by
      rcases Bool.or_eq_true_iff.mp hany with h | h
      · rcases Bool.or_eq_true_iff.mp h with h' | h'
        · rw [h1] at h'; cases h'
        · rw [h2] at h'; cases h'
      · exact h
    simp [genericResolvedAmount, h1, h2, h3]
  · intro h0
    simp [genericRowTxns, h0]
  · intro h0
    simp [genericRowTxns, h0]

/-- A generic bank row resolving through the `Credit` cell. -/
def demoCreditRow : Row :=
  [("Date", "01/02/2024"), ("Description", "deposit"), ("Credit", "25")]

/-- C8 witness: the amended resolution theorem applied to a concrete
Credit-only row. -/
theorem bank_generic_amount_resolution_witness :
    (genericRowTxns demoHashG demoCreditRow).map (fun t => t.amount) =
      [(25 : ℚ)] := by
  have hthm := bank_generic_amount_resolution demoHashG demoCreditRow (by decide)
  have hcred : genericResolvedAmount demoCreditRow =
      parseNumber (rowGet demoCreditRow "Credit") :=
    hthm.2.1 (by decide) (by decide)
  have hval : parseNumber (rowGet demoCreditRow "Credit") = 25 := by
    have h : rowGet demoCreditRow "Credit" = some "25" := by decide
    rw [h, parseNumber_eval "25" 25 0 (by decide)]
    norm_num
  have hres : genericResolvedAmount demoCreditRow = 25 := hcred.trans hval
  have := hthm.2.2.2.2 (by rw [hres]; norm_num)
  rw [hres] at this
  exact this

/-! ## Inventory costing (src/database.js `processCsvImport`, lines 456–520)

State of one `inventory` row and the per-LineItem read-modify-write.
(The electron-shell variant `updateInventoryFromTransaction` in the
unnamed sqlite module is the same arithmetic minus the division-by-zero
guard; the Postgres server version embedded here carries the guard
`newQuantity ? newTotalCost / newQuantity : 0`.) -/

/-- A bill line item as produced by `parseBillsFromCsv` and consumed by
`processCsvImport`. -/
structure LineItem where
  item : String
  description : String
  quantity : ℚ
  unit_cost : ℚ
  line_amount : ℚ
  deriving DecidableEq, Repr

/-- One `inventory` row (the columns the costing arithmetic touches). -/
structure InventoryRow where
  current_quantity : ℚ
  total_received : ℚ
  total_cost : ℚ
  average_unit_cost : ℚ
  deriving DecidableEq, Repr

/-- Apply one line item to the (possibly absent) inventory row of its
item: existing rows accumulate quantity and `line_amount` and recompute
the average with a zero-quantity guard; a first-ever line inserts a row
whose average is seeded with the line's `unit_cost`. -/
def applyLineToInventory : Option InventoryRow → LineItem → InventoryRow
  | some row, line =>
      let newQuantity := row.current_quantity + line.quantity
      let newTotalCost := row.total_cost + line.line_amount
      { current_quantity := newQuantity,
        total_received := row.total_received + line.quantity,
        total_cost := newTotalCost,
        average_unit_cost :=
          if newQuantity ≠ 0 then newTotalCost / newQuantity else 0 }
  | none, line =>
      { current_quantity := line.quantity,
        total_received := line.quantity,
        total_cost := line.line_amount,
        average_unit_cost := line.unit_cost }

/-- Replay every line item touching one inventory item, in processing
order, starting from an absent row. -/
def replayInventory (lines : List LineItem) : Option InventoryRow :=
  lines.foldl (fun s l => some (applyLineToInventory s l)) none

/-- Modelled from the spec: the claimed weighted average
`Σ(qi·ci) / Σqi`, `0` when the accumulated quantity is zero. -/
def specWeightedAvg (lines : List LineItem) : ℚ :=
  let qsum := (lines.map (fun l => l.quantity)).sum
  if qsum ≠ 0 then
    ((lines.map (fun l => l.quantity * l.unit_cost)).sum) / qsum
  else 0

/-- Folding from an existing row accumulates the quantity and
`line_amount` sums, and any non-empty tail leaves the average in the
guarded `total/quantity` shape. -/
theorem foldl_applyLine_some (r : InventoryRow) (ls : List LineItem) :
    ∃ r', ls.foldl (fun s l => some (applyLineToInventory s l)) (some r) =
        some r' ∧
      r'.current_quantity =
        r.current_quantity + (ls.map (fun l => l.quantity)).sum ∧
      r'.total_cost = r.total_cost + (ls.map (fun l => l.line_amount)).sum ∧
      (ls ≠ [] → r'.average_unit_cost =
        if r'.current_quantity ≠ 0 then r'.total_cost / r'.current_quantity
        else 0) ∧
      (ls = [] → r' = r) := by
  induction ls generalizing r with
  | nil => exact ⟨r, rfl, by simp, by simp, by simp, fun _ => rfl⟩
  | cons l t ih =>
      obtain ⟨r', hfold, hq, hc, havg, hnil⟩ := ih (applyLineToInventory (some r) l)
      refine ⟨r', hfold, ?_, ?_, ?_, ?_⟩
      · rw [hq]
        simp [applyLineToInventory, add_assoc]
      · rw [hc]
        simp [applyLineToInventory, add_assoc]
      · intro _
        rcases eq_or_ne t ([] : List LineItem) with ht | ht
        · subst ht
          rw [hnil rfl]
          simp [applyLineToInventory]
        · exact havg ht
      · intro h
        cases h

/-- C3 (counterexample): a single line with quantity `0` and unit cost
`5` (a CSV row with an empty Qty cell and Cost `5`) leaves
`average_unit_cost = 5` — the insert path seeds the average with the
line's `unit_cost` — while the claimed formula demands `0` because the
accumulated quantity is `0`. -/
theorem inventory_avg_claim_false :
    (replayInventory [⟨"X", "", 0, 5, 0⟩]).map
        (fun r => r.average_unit_cost) = some 5 ∧
    specWeightedAvg [⟨"X", "", 0, 5, 0⟩] = 0 ∧ (5 : ℚ) ≠ 0 := by
  refine ⟨rfl, ?_, by norm_num⟩
  norm_num [specWeightedAvg]

/-- C3 (amended): provided every replayed line's `line_amount` is exactly
`quantity × unit_cost` (no rounding residue) and — when the item only
ever received a single line — that line's quantity is non-zero, the
stored `average_unit_cost` equals `Σ(qi·ci) / Σqi`, and equals `0` when
the accumulated quantity is `0`.  Replaying the same lines in the same
order always reproduces this value (`replayInventory` is a pure fold). -/
theorem inventory_weighted_average (lines : List LineItem)
    (hne : lines ≠ [])
    (hexact : ∀ l ∈ lines, l.line_amount = l.quantity * l.unit_cost)
    (hsingle : ∀ l, lines = [l] → l.quantity ≠ 0) :
    (replayInventory lines).map (fun r => r.average_unit_cost) =
      some (specWeightedAvg lines) := by
  match lines, hne with
  | l :: t, _ =>
    obtain ⟨r', hfold, hq, hc, havg, hnil⟩ :=
      foldl_applyLine_some (applyLineToInventory none l) t
    have hsum : ((l :: t).map (fun x => x.line_amount)).sum =
        ((l :: t).map (fun x => x.quantity * x.unit_cost)).sum := by
      have : (l :: t).map (fun x => x.line_amount) =
          (l :: t).map (fun x => x.quantity * x.unit_cost) :=
        List.map_congr_left hexact
      rw [this]
    have hrepl : replayInventory (l :: t) = some r' := by
      simpa [replayInventory] using hfold
    rcases eq_or_ne t ([] : List LineItem) with ht | ht
    · subst ht
      have hr : r' = applyLineToInventory none l := hnil rfl
      have hlq : l.quantity ≠ 0 := hsingle l rfl
      rw [hrepl, hr]
      simp only [applyLineToInventory, Option.map_some]
      have : specWeightedAvg [l] = l.unit_cost := by
        simp only [specWeightedAvg, List.map_cons, List.map_nil,
          List.sum_cons, List.sum_nil, add_zero, if_pos hlq]
        rw [mul_comm, mul_div_assoc, div_self hlq, mul_one]
      rw [this]
      rfl
    · have havg' := havg ht
      have hinit : applyLineToInventory none l =
          ⟨l.quantity, l.quantity, l.line_amount, l.unit_cost⟩ := rfl
      rw [hrepl]
      rw [show Option.map (fun r => r.average_unit_cost) (some r') =
        some r'.average_unit_cost from rfl, Option.some_inj]
      rw [havg']
      have hqtot : r'.current_quantity =
          ((l :: t).map (fun x => x.quantity)).sum := by
        rw [hq, hinit]
        simp
      have hctot : r'.total_cost =
          ((l :: t).map (fun x => x.line_amount)).sum := by
        rw [hc, hinit]
        simp
      rw [hqtot, hctot, hsum]
      simp only [specWeightedAvg]

/-- Two concrete receipts of the same item: 2 @ 3.00 then 2 @ 5.00. -/
def demoInvLines : List LineItem :=
  [⟨"X", "", 2, 3, 6⟩, ⟨"X", "", 2, 5, 10⟩]

/-- C3 witness: the amended weighted-average theorem at two concrete
receipts, giving (2·3 + 2·5) / 4 = 4. -/
theorem inventory_weighted_average_witness :
    (replayInventory demoInvLines).map (fun r => r.average_unit_cost) =
      some 4 := by
  have h := inventory_weighted_average demoInvLines (by simp [demoInvLines])
    (by intro l hl; fin_cases hl <;> norm_num)
    (by intro l hl; simp [demoInvLines] at hl)
  rw [h]
  norm_num [specWeightedAvg, demoInvLines]

/-! ## `parseBillsFromCsv` (src/server.js lines 66–139)

The `csv-parse` library is abstracted away: the embedding starts from the
already-parsed record list.  `formatDate` (dayjs-backed normalization to
`MM/DD/YYYY`) and `computeDueDate`'s date backend are passed in as
parameters `fmtDate` and `dueD`. -/

/-- A grouped bill as produced by `parseBillsFromCsv`. -/
structure Bill where
  vendor : String
  ref_num : String
  date : String
  total_amount : ℚ
  due_date : String
  terms : String
  lines : List LineItem
  deriving DecidableEq, Repr

/-- Item synonyms accepted by the parser (unlike the classifier's rule 5,
this list has no `description`). -/
def itemSynParse : List String :=
  ["item", "item code", "sku", "product", "product code"]

/-- `findActualCol`: first synonym that matches some actual header
(compared lowercased-then-trimmed), returning the actual header name. -/
def findActualCol (records : List Row) (syns : List String) : Option String :=
  match records with
  | [] => none
  | r :: _ =>
      syns.findSome? (fun syn =>
        (r.map Prod.fst).find? (fun k => jsTrim (jsToLower k) = syn))

/-- Resolve the five required column roles, or fail with the parser's
missing-columns message. -/
def resolvePoCols (records : List Row) :
    Except String (String × String × String × String × String) :=
  let vc := findActualCol records vendorSyn
  let rc := findActualCol records refSyn
  let ic := findActualCol records itemSynParse
  let qc := findActualCol records qtySyn
  let cc := findActualCol records costSyn
  match vc, rc, ic, qc, cc with
  | some v, some r, some i, some q, some c => .ok (v, r, i, q, c)
  | _, _, _, _, _ =>
      let missing := (if vc.isNone then ["vendor"] else [])
        ++ (if rc.isNone then ["refnumber"] else [])
        ++ (if ic.isNone then ["item"] else [])
        ++ (if qc.isNone then ["qty"] else [])
        ++ (if cc.isNone then ["cost"] else [])
      .error ("Missing required columns: " ++ String.intercalate ", " missing)

/-- The date-cell fallback chain
`row['Date'] || row['TxnDate'] || … || row['DATE']`. -/
def rowDateCell (r : Row) : Option String :=
  jsOr (rowGet r "Date") (jsOr (rowGet r "TxnDate")
    (jsOr (rowGet r "Transaction Date") (jsOr (rowGet r "PO Date")
      (jsOr (rowGet r "DocDate") (jsOr (rowGet r "PODate")
        (rowGet r "DATE"))))))

/-- The grouping key `${vendor}||${ref}||${date}` of a row. -/
def poRowKey (fmtDate : Option String → String) (vc rc : String) (r : Row) :
    String :=
  sanitize (rowGet r vc) ++ "||" ++ sanitize (rowGet r rc) ++ "||"
    ++ fmtDate (rowDateCell r)

/-- The key a row contributes under, `none` when the row is silently
dropped for a missing vendor or reference. -/
def poKeptKey (fmtDate : Option String → String) (vc rc : String) (r : Row) :
    Option String :=
  if sanitize (rowGet r vc) = "" ∨ sanitize (rowGet r rc) = "" then none
  else some (poRowKey fmtDate vc rc r)

/-- Insertion-ordered multimap update (JS `Map` semantics): append to an
existing key's bucket, else add a new bucket at the end. -/
def groupUpsert (m : List (String × List Row)) (k : String) (r : Row) :
    List (String × List Row) :=
  if m.any (fun p => p.1 = k) then
    m.map (fun p => if p.1 = k then (p.1, p.2 ++ [r]) else p)
  else m ++ [(k, [r])]

/-- One step of the grouping loop. -/
def poGroupStep (fmtDate : Option String → String) (vc rc : String)
    (m : List (String × List Row)) (r : Row) : List (String × List Row) :=
  match poKeptKey fmtDate vc rc r with
  | none => m
  | some k => groupUpsert m k r

/-- The full grouping pass over the records. -/
def poGroups (fmtDate : Option String → String) (vc rc : String)
    (records : List Row) : List (String × List Row) :=
  records.foldl (poGroupStep fmtDate vc rc) []

/-- Split on the literal separator `||` (JS `key.split('||')`),
non-overlapping, leftmost first. -/
def splitBarsAux : List Char → List Char → List (List Char)
  | acc, '|' :: '|' :: rest => acc :: splitBarsAux [] rest
  | acc, c :: rest => splitBarsAux (acc ++ [c]) rest
  | acc, [] => [acc]

/-- `key.split('||')` on strings. -/
def splitOnBars (s : String) : List String :=
  (splitBarsAux [] s.toList).map (fun cs => ⟨cs⟩)

/-- Splitting a bar-free prefix followed by the separator emits the
prefix (with the pending accumulator) and continues after the separator. -/
theorem splitBarsAux_append_sep (rest : List Char) :
    ∀ (a acc : List Char), '|' ∉ a →
      splitBarsAux acc (a ++ '|' :: '|' :: rest) =
        (acc ++ a) :: splitBarsAux [] rest := by
  intro a
  induction a with
  | nil =>
      intro acc _
      simp [splitBarsAux]
  | cons c a' ih =>
      intro acc h
      have hc : c ≠ '|' := by
        intro hh
        exact h (by simp [hh])
      have h' : '|' ∉ a' := fun hm => h (List.mem_cons_of_mem _ hm)
      cases a' with
      | nil => simp [splitBarsAux, hc]
      | cons c2 a'' =>
          have step : splitBarsAux acc
              (c :: (c2 :: a'' ++ '|' :: '|' :: rest)) =
              splitBarsAux (acc ++ [c]) (c2 :: a'' ++ '|' :: '|' :: rest) := by
            simp [splitBarsAux, hc]
          rw [List.cons_append, step, ih (acc ++ [c]) h']
          simp

/-- Splitting a bar-free string yields a single part. -/
theorem splitBarsAux_no_sep :
    ∀ (a acc : List Char), '|' ∉ a → splitBarsAux acc a = [acc ++ a] := by
  intro a
  induction a with
  | nil =>
      intro acc _
      simp [splitBarsAux]
  | cons c a' ih =>
      intro acc h
      have hc : c ≠ '|' := by
        intro hh
        exact h (by simp [hh])
      have h' : '|' ∉ a' := fun hm => h (List.mem_cons_of_mem _ hm)
      cases a' with
      | nil => simp [splitBarsAux]
      | cons c2 a'' =>
          have step : splitBarsAux acc (c :: (c2 :: a'')) =
              splitBarsAux (acc ++ [c]) (c2 :: a'') := by
            simp [splitBarsAux, hc]
          rw [step, ih (acc ++ [c]) h']
          simp

/-- `split('||')` recovers the three components of a grouping key whose
components are bar-free. -/
theorem splitOnBars_key (v r d : String) (hv : '|' ∉ v.toList)
    (hr : '|' ∉ r.toList) (hd : '|' ∉ d.toList) :
    splitOnBars (v ++ "||" ++ r ++ "||" ++ d) = [v, r, d] := by
  have h1 : (v ++ "||" ++ r ++ "||" ++ d).toList =
      v.toList ++ '|' :: '|' :: (r.toList ++ '|' :: '|' :: d.toList) := by
    simp [String.toList, String.data_append]
  rw [splitOnBars, h1, splitBarsAux_append_sep _ _ _ hv]
  rw [splitBarsAux_append_sep _ _ _ hr, splitBarsAux_no_sep _ _ hd]
  simp

/-- A key is hit by `List.any` exactly when it is among the bucket keys. -/
theorem any_key_eq (m : List (String × List Row)) (k : String) :
    (m.any fun p => p.1 = k) = true ↔ k ∈ m.map Prod.fst := by
  simp [List.any_eq_true, List.mem_map]

/-- Invariant of the grouping loop: bucket keys stay distinct, every
bucket equals the filter of the processed rows by its key, and every kept
row's key owns a bucket. -/
theorem poGroupFold_aux (fmtDate : Option String → String) (vc rc : String) :
    ∀ (rs : List Row) (m : List (String × List Row)) (prev : List Row),
      (m.map Prod.fst).Nodup →
      (∀ p ∈ m, p.2 = prev.filter
        (fun r => poKeptKey fmtDate vc rc r == some p.1)) →
      (∀ r ∈ prev, ∀ k, poKeptKey fmtDate vc rc r = some k →
        k ∈ m.map Prod.fst) →
      (∀ p ∈ m, ∃ r ∈ prev, poKeptKey fmtDate vc rc r = some p.1) →
      (((rs.foldl (poGroupStep fmtDate vc rc) m).map Prod.fst).Nodup ∧
       (∀ p ∈ rs.foldl (poGroupStep fmtDate vc rc) m,
         p.2 = (prev ++ rs).filter
           (fun r => poKeptKey fmtDate vc rc r == some p.1)) ∧
       (∀ r ∈ prev ++ rs, ∀ k, poKeptKey fmtDate vc rc r = some k →
         k ∈ (rs.foldl (poGroupStep fmtDate vc rc) m).map Prod.fst) ∧
       (∀ p ∈ rs.foldl (poGroupStep fmtDate vc rc) m,
         ∃ r ∈ prev ++ rs, poKeptKey fmtDate vc rc r = some p.1)) := by
  intro rs
  induction rs with
  | nil =>
      intro m prev h1 h2 h3 h4
      simp only [List.foldl_nil, List.append_nil]
      exact ⟨h1, h2, h3, h4⟩
  | cons r rs ih =>
      intro m prev h1 h2 h3 h4
      have hstep :
          ((poGroupStep fmtDate vc rc m r).map Prod.fst).Nodup ∧
          (∀ p ∈ poGroupStep fmtDate vc rc m r,
            p.2 = (prev ++ [r]).filter
              (fun x => poKeptKey fmtDate vc rc x == some p.1)) ∧
          (∀ x ∈ prev ++ [r], ∀ k, poKeptKey fmtDate vc rc x = some k →
            k ∈ (poGroupStep fmtDate vc rc m r).map Prod.fst) ∧
          (∀ p ∈ poGroupStep fmtDate vc rc m r,
            ∃ x ∈ prev ++ [r], poKeptKey fmtDate vc rc x = some p.1) := by
        cases hk : poKeptKey fmtDate vc rc r with
        | none =>
            have hm : poGroupStep fmtDate vc rc m r = m := by
              simp [poGroupStep, hk]
            rw [hm]
            refine ⟨h1, ?_, ?_, ?_⟩
            · intro p hp
              rw [h2 p hp, List.filter_append]
              simp [hk]
            · intro x hx k hxk
              rcases List.mem_append.mp hx with hx | hx
              · exact h3 x hx k hxk
              · have hxr : x = r := by simpa using hx
                rw [hxr, hk] at hxk
                cases hxk
            · intro p hp
              obtain ⟨x, hx, hxk⟩ := h4 p hp
              exact ⟨x, List.mem_append_left _ hx, hxk⟩
        | some k =>
            by_cases hmem : k ∈ m.map Prod.fst
            · have hany : (m.any fun p => p.1 = k) = true :=
                (any_key_eq m k).mpr hmem
              have hm : poGroupStep fmtDate vc rc m r =
                  m.map (fun p => if p.1 = k then (p.1, p.2 ++ [r]) else p) := by
                simp [poGroupStep, hk, groupUpsert, hany]
              have hkeys : (poGroupStep fmtDate vc rc m r).map Prod.fst =
                  m.map Prod.fst := by
                rw [hm, List.map_map]
                apply List.map_congr_left
                intro p _
                by_cases hpk : p.1 = k <;> simp [hpk]
              refine ⟨hkeys ▸ h1, ?_, ?_, ?_⟩
              · intro p' hp'
                rw [hm] at hp'
                obtain ⟨p, hp, hpe⟩ := List.mem_map.mp hp'
                by_cases hpk : p.1 = k
                · rw [if_pos hpk] at hpe
                  have hfst : p'.1 = p.1 := by rw [← hpe]
                  have hsnd : p'.2 = p.2 ++ [r] := by rw [← hpe]
                  have hpr : (poKeptKey fmtDate vc rc r == some p.1) = true := by
                    rw [hk, hpk]
                    simp
                  rw [hsnd, hfst, List.filter_append, ← h2 p hp]
                  simp [hpr]
                · rw [if_neg hpk] at hpe
                  have hfst : p'.1 = p.1 := by rw [← hpe]
                  have hsnd : p'.2 = p.2 := by rw [← hpe]
                  have hpr : (poKeptKey fmtDate vc rc r == some p.1) = false := by
                    rw [hk]
                    rw [beq_eq_false_iff_ne]
                    simp only [ne_eq, Option.some_inj]
                    exact fun h => hpk h.symm
                  rw [hsnd, hfst, List.filter_append, ← h2 p hp]
                  simp [hpr]
              · intro x hx k' hxk
                rw [hkeys]
                rcases List.mem_append.mp hx with hx | hx
                · exact h3 x hx k' hxk
                · have hxr : x = r := by simpa using hx
                  rw [hxr, hk] at hxk
                  cases hxk
                  exact hmem
              · intro p' hp'
                rw [hm] at hp'
                obtain ⟨p, hp, hpe⟩ := List.mem_map.mp hp'
                have hfst : p'.1 = p.1 := by
                  by_cases hpk : p.1 = k
                  · rw [if_pos hpk] at hpe
                    rw [← hpe]
                  · rw [if_neg hpk] at hpe
                    rw [← hpe]
                obtain ⟨x, hx, hxk⟩ := h4 p hp
                refine ⟨x, List.mem_append_left _ hx, ?_⟩
                rw [hfst]
                exact hxk
            · have hany : (m.any fun p => p.1 = k) = false := by
                rw [← Bool.not_eq_true]
                intro hc
                exact hmem ((any_key_eq m k).mp hc)
              have hm : poGroupStep fmtDate vc rc m r = m ++ [(k, [r])] := by
                simp [poGroupStep, hk, groupUpsert, hany]
              refine ⟨?_, ?_, ?_, ?_⟩
              · rw [hm]
                simp only [List.map_append, List.map_cons, List.map_nil]
                rw [List.nodup_append]
                refine ⟨h1, List.nodup_singleton k, ?_⟩
                intro a ha hb
                have hak : a = k := by simpa using hb
                rw [hak] at ha
                exact hmem ha
              · intro p' hp'
                rw [hm] at hp'
                rcases List.mem_append.mp hp' with hp | hp
                · have hpr : (poKeptKey fmtDate vc rc r == some p'.1) = false := by
                    rw [hk]
                    rw [beq_eq_false_iff_ne]
                    simp only [ne_eq, Option.some_inj]
                    intro hkk
                    apply hmem
                    rw [hkk]
                    exact List.mem_map.mpr ⟨p', hp, rfl⟩
                  rw [List.filter_append, ← h2 p' hp]
                  simp [hpr]
                · have hpk : p' = (k, [r]) := by simpa using hp
                  rw [hpk]
                  have hpr : (poKeptKey fmtDate vc rc r == some k) = true := by
                    rw [hk]
                    simp
                  have hnil : prev.filter
                      (fun x => poKeptKey fmtDate vc rc x == some k) = [] := by
                    rw [List.filter_eq_nil_iff]
                    intro x hx hc
                    have hc' : poKeptKey fmtDate vc rc x = some k := by
                      simpa using hc
                    exact hmem (h3 x hx k hc')
                  rw [List.filter_append, hnil]
                  simp [hpr]
              · intro x hx k' hxk
                rw [hm]
                simp only [List.map_append, List.map_cons, List.map_nil]
                rcases List.mem_append.mp hx with hx | hx
                · exact List.mem_append_left _ (h3 x hx k' hxk)
                · have hxr : x = r := by simpa using hx
                  rw [hxr, hk] at hxk
                  cases hxk
                  exact List.mem_append_right _ (by simp)
              · intro p' hp'
                rw [hm] at hp'
                rcases List.mem_append.mp hp' with hp | hp
                · obtain ⟨x, hx, hxk⟩ := h4 p' hp
                  exact ⟨x, List.mem_append_left _ hx, hxk⟩
                · have hpk : p' = (k, [r]) := by simpa using hp
                  rw [hpk]
                  exact ⟨r, List.mem_append_right _ (by simp), hk⟩
      obtain ⟨H1, H2, H3, H4⟩ := hstep
      obtain ⟨g1, g2, g3, g4⟩ := ih (poGroupStep fmtDate vc rc m r) (prev ++ [r])
        H1 H2 H3 H4
      have hpr : (prev ++ [r]) ++ rs = prev ++ r :: rs := by simp
      rw [List.foldl_cons]
      refine ⟨g1, ?_, ?_, ?_⟩
      · intro p hp
        rw [← hpr]
        exact g2 p hp
      · intro x hx k hxk
        apply g3 x _ k hxk
        rw [hpr]
        exact hx
      · intro p hp
        obtain ⟨x, hx, hxk⟩ := g4 p hp
        rw [hpr] at hx
        exact ⟨x, hx, hxk⟩

/-- Terms inference: first non-empty sanitized
`Terms || 'Payment Terms' || Term` cell across the group, else `""`. -/
def inferTerms : List Row → String
  | [] => ""
  | r :: rest =>
      let t := sanitize (jsOr (rowGet r "Terms")
        (jsOr (rowGet r "Payment Terms") (rowGet r "Term")))
      if t ≠ "" then t else inferTerms rest

/-- One parsed line item of a grouped row. -/
def mkPoLine (ic qc cc : String) (r : Row) : LineItem :=
  let qty := parseNumber (rowGet r qc)
  let cost := parseNumber (rowGet r cc)
  let lineAmount := round2 (qty * cost)
  { item := sanitize (rowGet r ic),
    description := sanitize (jsOr (rowGet r "Description")
      (rowGet r "Item Description")),
    quantity := qty,
    unit_cost := round2 cost,
    line_amount := round2 lineAmount }

/-- Build one bill from a grouped bucket: the vendor/reference/date are
re-derived by splitting the key on `||` and taking the first three parts
(the JS array destructuring). -/
def mkPoBill (dueD : String → String → String) (ic qc cc : String)
    (entry : String × List Row) : Bill :=
  let parts := splitOnBars entry.1
  let vendor := parts.getD 0 ""
  let ref := parts.getD 1 ""
  let date := parts.getD 2 ""
  let rows := entry.2
  let inferredTerms := inferTerms rows
  let lines := rows.map (mkPoLine ic qc cc)
  let total := (rows.map (fun r =>
    round2 (parseNumber (rowGet r qc) * parseNumber (rowGet r cc)))).sum
  let terms := if inferredTerms ≠ "" then inferredTerms else "Due upon receipt"
  { vendor := vendor, ref_num := ref, date := date,
    total_amount := round2 total, due_date := dueD date terms,
    terms := terms, lines := lines }

/-- Two-decimal values are fixed points of `round2`. -/
theorem round2_intCast_div (n : ℤ) : round2 ((n : ℚ) / 100) = (n : ℚ) / 100 := by
  unfold round2 jsMathRound
  rw [div_mul_cancel₀ _ (by norm_num : (100 : ℚ) ≠ 0)]
  rw [Int.floor_int_add]
  norm_num

/-- `round2` is idempotent. -/
theorem round2_idem (x : ℚ) : round2 (round2 x) = round2 x :=
  round2_intCast_div (jsMathRound (x * 100))

/-- Joining three bar-free components with `||` is injective. -/
theorem poKey_inj (v1 r1 d1 v2 r2 d2 : String)
    (hv1 : '|' ∉ v1.toList) (hr1 : '|' ∉ r1.toList) (hd1 : '|' ∉ d1.toList)
    (hv2 : '|' ∉ v2.toList) (hr2 : '|' ∉ r2.toList) (hd2 : '|' ∉ d2.toList) :
    v1 ++ "||" ++ r1 ++ "||" ++ d1 = v2 ++ "||" ++ r2 ++ "||" ++ d2 ↔
      v1 = v2 ∧ r1 = r2 ∧ d1 = d2 := by
  constructor
  · intro h
    have hs := splitOnBars_key v1 r1 d1 hv1 hr1 hd1
    rw [h, splitOnBars_key v2 r2 d2 hv2 hr2 hd2] at hs
    simpa using hs.symm
  · rintro ⟨rfl, rfl, rfl⟩
    rfl

/-- `parseBillsFromCsv` from the already-parsed record list. -/
def parseBills (fmtDate : Option String → String)
    (dueD : String → String → String) (records : List Row) :
    Except String (List Bill) :=
  if records.isEmpty then .error "CSV is empty or could not be parsed."
  else
    match resolvePoCols records with
    | .error e => .error e
    | .ok (vc, rc, ic, qc, cc) =>
        let bills := (poGroups fmtDate vc rc records).map (mkPoBill dueD ic qc cc)
        if bills.isEmpty then
          .error "No valid bills found (missing Vendor/RefNumber on rows)."
        else .ok bills

/-- Bool extensionality through `= true`. -/
theorem bool_ext (a b : Bool) (h : a = true ↔ b = true) : a = b := by
  cases a <;> cases b <;> simp_all

/-- Field recovery for a bill built from a bar-free key. -/
theorem mkPoBill_fields (dueD : String → String → String) (ic qc cc : String)
    (p : String × List Row) (v r d : String)
    (hk : p.1 = v ++ "||" ++ r ++ "||" ++ d)
    (hv : '|' ∉ v.toList) (hr : '|' ∉ r.toList) (hd : '|' ∉ d.toList) :
    (mkPoBill dueD ic qc cc p).vendor = v ∧
    (mkPoBill dueD ic qc cc p).ref_num = r ∧
    (mkPoBill dueD ic qc cc p).date = d ∧
    (mkPoBill dueD ic qc cc p).lines = p.2.map (mkPoLine ic qc cc) ∧
    (mkPoBill dueD ic qc cc p).total_amount =
      round2 ((p.2.map (fun x =>
        round2 (parseNumber (rowGet x qc) * parseNumber (rowGet x cc)))).sum) := by
  obtain ⟨k, g⟩ := p
  simp only at hk
  subst hk
  unfold mkPoBill
  rw [splitOnBars_key v r d hv hr hd]
  exact ⟨rfl, rfl, rfl, rfl, rfl⟩

/-- A parsed line's `line_amount` is the two-decimal rounding of
(parsed) quantity times (parsed, unrounded) cost. -/
theorem mkPoLine_line_amount (ic qc cc : String) (r : Row) :
    (mkPoLine ic qc cc r).line_amount =
      round2 ((mkPoLine ic qc cc r).quantity * parseNumber (rowGet r cc)) := by
  unfold mkPoLine
  exact round2_idem _

/-- A kept row's key is `some` of its joined key. -/
theorem poKeptKey_of_kept (fmtDate : Option String → String) (vc rc : String)
    (r : Row) (hv : sanitize (rowGet r vc) ≠ "")
    (hr : sanitize (rowGet r rc) ≠ "") :
    poKeptKey fmtDate vc rc r = some (poRowKey fmtDate vc rc r) := by
  unfold poKeptKey
  rw [if_neg]
  push_neg
  exact ⟨hv, hr⟩

/-- C2 (amended): for records whose rows all carry a non-empty sanitized
vendor and reference, none of which — nor the normalized date — contains
the bar character `|` (the grouping key is joined with `||` and re-split,
so bar-carrying fields can collide or mis-split; see the
counterexample), parsing succeeds and: every produced bill's line items
are exactly the rows sharing its (vendor, reference, date) key, in order;
every row's key owns a bill; every line's `line_amount` is
`round2(quantity × cost)`; and every bill's `total_amount` is the
two-decimal rounding of the sum of its lines' `line_amount`s. -/
theorem parseBills_grouping (fmtDate : Option String → String)
    (dueD : String → String → String) (records : List Row)
    (vc rc ic qc cc : String)
    (hcols : resolvePoCols records = .ok (vc, rc, ic, qc, cc))
    (hne : records ≠ [])
    (hkeep : ∀ r ∈ records,
      sanitize (rowGet r vc) ≠ "" ∧ sanitize (rowGet r rc) ≠ "")
    (hbar : ∀ r ∈ records, '|' ∉ (sanitize (rowGet r vc)).toList ∧
      '|' ∉ (sanitize (rowGet r rc)).toList)
    (hbarD : ∀ o, '|' ∉ (fmtDate o).toList) :
    ∃ bs, parseBills fmtDate dueD records = .ok bs ∧
      (∀ b ∈ bs, b.lines = (records.filter (fun r =>
          sanitize (rowGet r vc) == b.vendor
          && (sanitize (rowGet r rc) == b.ref_num
          && fmtDate (rowDateCell r) == b.date))).map (mkPoLine ic qc cc)) ∧
      (∀ r ∈ records, ∃ b ∈ bs, b.vendor = sanitize (rowGet r vc) ∧
        b.ref_num = sanitize (rowGet r rc) ∧ b.date = fmtDate (rowDateCell r)) ∧
      (∀ b ∈ bs, b.total_amount =
        round2 ((b.lines.map (fun l => l.line_amount)).sum)) ∧
      (∀ r : Row, (mkPoLine ic qc cc r).line_amount =
        round2 ((mkPoLine ic qc cc r).quantity * parseNumber (rowGet r cc))) := by
  obtain ⟨hnodup, hfilter, hcomplete, hsource⟩ :=
    poGroupFold_aux fmtDate vc rc records [] [] (by simp) (by simp)
      (by simp) (by simp)
  simp only [List.nil_append] at hfilter hcomplete hsource
  have hgroups : poGroups fmtDate vc rc records =
      records.foldl (poGroupStep fmtDate vc rc) [] := rfl
  have hkept : ∀ r ∈ records,
      poKeptKey fmtDate vc rc r = some (poRowKey fmtDate vc rc r) := by
    intro r hr
    exact poKeptKey_of_kept fmtDate vc rc r (hkeep r hr).1 (hkeep r hr).2
  -- the groups are non-empty because the first record is kept
  have hgne : poGroups fmtDate vc rc records ≠ [] := by
    intro hempty
    match records, hne with
    | r0 :: rest, _ =>
      have h0 := hcomplete r0 (by simp) (poRowKey fmtDate vc rc r0)
        (hkept r0 (by simp))
      rw [← hgroups, hempty] at h0
      simp at h0
  have hbillsne : (poGroups fmtDate vc rc records).map
      (mkPoBill dueD ic qc cc) ≠ [] := by
    simpa using hgne
  have hie : records.isEmpty = false := by
    cases records with
    | nil => exact absurd rfl hne
    | cons a l => rfl
  have hie2 : ((poGroups fmtDate vc rc records).map
      (mkPoBill dueD ic qc cc)).isEmpty = false := by
    cases hmap : (poGroups fmtDate vc rc records).map (mkPoBill dueD ic qc cc) with
    | nil => exact absurd hmap hbillsne
    | cons a l => rfl
  have hpb : parseBills fmtDate dueD records =
      .ok ((poGroups fmtDate vc rc records).map (mkPoBill dueD ic qc cc)) := by
    simp only [parseBills, hie, Bool.false_eq_true, if_false, hcols, hie2]
  refine ⟨_, hpb, ?_, ?_, ?_, fun r => mkPoLine_line_amount ic qc cc r⟩
  · -- each bill's lines are exactly its key's rows
    intro b hb
    obtain ⟨p, hp, hpe⟩ := List.mem_map.mp hb
    obtain ⟨r0, hr0, hr0k⟩ := hsource p (hgroups ▸ hp)
    have hkey0 : poRowKey fmtDate vc rc r0 = p.1 := by
      rw [hkept r0 hr0] at hr0k
      exact Option.some_inj.mp hr0k
    obtain ⟨hbv, hbr, hbd, hbl, hbt⟩ := mkPoBill_fields dueD ic qc cc p
      (sanitize (rowGet r0 vc)) (sanitize (rowGet r0 rc))
      (fmtDate (rowDateCell r0)) hkey0.symm
      (hbar r0 hr0).1 (hbar r0 hr0).2 (hbarD _)
    rw [← hpe, hbl, hbv, hbr, hbd]
    have hg := hfilter p (hgroups ▸ hp)
    have hg' : p.2 = records.filter (fun r =>
        sanitize (rowGet r vc) == sanitize (rowGet r0 vc)
        && (sanitize (rowGet r rc) == sanitize (rowGet r0 rc)
        && fmtDate (rowDateCell r) == fmtDate (rowDateCell r0))) := by
      rw [hg]
      apply List.filter_congr
      intro x hx
      apply bool_ext
      rw [hkept x hx]
      constructor
      · intro h
        have hxk : poRowKey fmtDate vc rc x = p.1 := by
          simpa using h
        rw [← hkey0] at hxk
        have := (poKey_inj _ _ _ _ _ _ (hbar x hx).1 (hbar x hx).2 (hbarD _)
          (hbar r0 hr0).1 (hbar r0 hr0).2 (hbarD _)).mp hxk
        simp [this.1, this.2.1, this.2.2]
      · intro h
        simp only [Bool.and_eq_true, beq_iff_eq] at h
        have hxk : poRowKey fmtDate vc rc x = p.1 := by
          rw [← hkey0]
          unfold poRowKey
          rw [h.1, h.2.1, h.2.2]
        simpa using hxk
    rw [← hg']
  · -- every row's key owns a bill
    intro r hr
    have hk := hcomplete r hr (poRowKey fmtDate vc rc r) (hkept r hr)
    rw [← hgroups] at hk
    obtain ⟨p, hp, hpk⟩ := List.mem_map.mp hk
    refine ⟨mkPoBill dueD ic qc cc p, List.mem_map.mpr ⟨p, hp, rfl⟩, ?_⟩
    obtain ⟨hbv, hbr, hbd, _, _⟩ := mkPoBill_fields dueD ic qc cc p
      (sanitize (rowGet r vc)) (sanitize (rowGet r rc))
      (fmtDate (rowDateCell r)) hpk
      (hbar r hr).1 (hbar r hr).2 (hbarD _)
    exact ⟨hbv, hbr, hbd⟩
  · -- bill total is the rounded sum of the line amounts
    intro b hb
    obtain ⟨p, hp, hpe⟩ := List.mem_map.mp hb
    obtain ⟨r0, hr0, hr0k⟩ := hsource p (hgroups ▸ hp)
    have hkey0 : poRowKey fmtDate vc rc r0 = p.1 := by
      rw [hkept r0 hr0] at hr0k
      exact Option.some_inj.mp hr0k
    obtain ⟨_, _, _, hbl, hbt⟩ := mkPoBill_fields dueD ic qc cc p
      (sanitize (rowGet r0 vc)) (sanitize (rowGet r0 rc))
      (fmtDate (rowDateCell r0)) hkey0.symm
      (hbar r0 hr0).1 (hbar r0 hr0).2 (hbarD _)
    rw [← hpe, hbt, hbl, List.map_map]
    congr 1
    congr 1
    apply List.map_congr_left
    intro x _
    show round2 (parseNumber (rowGet x qc) * parseNumber (rowGet x cc)) =
      (mkPoLine ic qc cc x).line_amount
    exact (round2_idem _).symm

/-- A constant stand-in for `formatDate`'s dayjs backend. -/
def demoFmt : Option String → String := fun _ => "01/05/2024"

/-- A `computeDueDate` stand-in that leaves the date unchanged. -/
def demoDueD : String → String → String := fun d _ => d

/-- Two rows with distinct (vendor, reference) pairs that collide on
the joined grouping key: `a||b` / `c` versus `a` / `b||c`. -/
def collideRows : List Row :=
  [[("Vendor", "a||b"), ("RefNumber", "c"), ("Item", "I1"), ("Qty", "1"),
    ("Cost", "2")],
   [("Vendor", "a"), ("RefNumber", "b||c"), ("Item", "I2"), ("Qty", "1"),
    ("Cost", "3")]]

/-- C2 (counterexample): rows with vendor `a||b` / reference `c` and
vendor `a` / reference `b||c` have different (vendor, reference, date)
group keys, yet the parser joins keys with `||` and re-splits, so both
rows land in one bill whose line set is *both* rows — and whose vendor,
reference and date are re-parsed as `a`, `b`, `c`, matching no row's key.
The claim that each bill carries exactly the rows of its key fails. -/
theorem parseBills_grouping_claim_false :
    (parseBills demoFmt demoDueD collideRows).toOption.map
      (fun bs => bs.map (fun b => (b.vendor, b.ref_num, b.date,
        b.lines.map (fun l => l.item)))) =
      some [("a", "b", "c", ["I1", "I2"])] ∧
    sanitize (rowGet (collideRows.getD 0 []) "Vendor") = "a||b" ∧
    sanitize (rowGet (collideRows.getD 1 []) "Vendor") = "a" ∧
    ("a||b" : String) ≠ "a" := by
  refine ⟨by decide, by decide, by decide, by decide⟩

/-- The spec's own concrete PO scenario: two Acme rows on one reference. -/
def demoPoRecords : List Row :=
  [[("Vendor", "Acme"), ("RefNumber", "PO-1"), ("Date", "01/05/2024"),
    ("Item", "Widget"), ("Qty", "10"), ("Cost", "2.50")],
   [("Vendor", "Acme"), ("RefNumber", "PO-1"), ("Date", "01/05/2024"),
    ("Item", "Gadget"), ("Qty", "2"), ("Cost", "5.00")]]

/-- C2 witness: the amended grouping theorem applied to the concrete
two-row Acme purchase order. -/
theorem parseBills_grouping_witness :
    ∃ bs, parseBills demoFmt demoDueD demoPoRecords = .ok bs ∧
      (∀ b ∈ bs, b.total_amount =
        round2 ((b.lines.map (fun l => l.line_amount)).sum)) ∧
      (∀ r ∈ demoPoRecords, ∃ b ∈ bs, b.vendor = sanitize (rowGet r "Vendor") ∧
        b.ref_num = sanitize (rowGet r "RefNumber") ∧
        b.date = demoFmt (rowDateCell r)) := by
  obtain ⟨bs, hok, _, h2, h3, _⟩ := parseBills_grouping demoFmt demoDueD
    demoPoRecords "Vendor" "RefNumber" "Item" "Qty" "Cost"
    (by rfl) (by decide) (by decide) (by decide)
    (by intro o
        show '|' ∉ ("01/05/2024" : String).toList
        decide)
  exact ⟨bs, hok, h3, h2⟩

/-! ## File-level deduplication
(src/database.js `storeCsvImport` lines 423–454, src/importer.js
`importPoBills` lines 28–43)

The `csv_imports` table is modelled as a list of rows; the md5 content
checksum is an abstract function parameter (same bytes always give the
same checksum — all the duplicate gate needs).  Provenance metadata
(`createImportMetadata` / `addImportRecords`) is recorded on *every*
call, duplicates included, into a separate provenance list — the spec's
ImportMetadataRecorder runs "always". -/

/-- One `csv_imports` row. -/
structure CsvImportRow where
  id : ℕ
  filename : String
  checksum : String
  processed : Bool
  deriving DecidableEq, Repr

/-- The result object of `storeCsvImport`. -/
structure StoreResult where
  id : ℕ
  isDuplicate : Bool
  alreadyProcessed : Bool
  message : String
  deriving DecidableEq, Repr

/-- An import-metadata provenance entry. -/
structure MetaEntry where
  source : String
  kind : String
  filename : String
  rowCount : ℕ
  deriving DecidableEq, Repr

/-- The slice of database state the PO import path touches. -/
structure PoDb where
  csvImports : List CsvImportRow
  importMeta : List MetaEntry
  nextId : ℕ
  deriving DecidableEq, Repr

/-- `storeCsvImport(filename, csvContent)`: look the content checksum up;
an existing row returns a duplicate result (with the stored `processed`
flag and the matching message) and leaves the table untouched, otherwise
a new unprocessed row is inserted. -/
def storeCsvImport (hash : String → String) (db : PoDb)
    (filename content : String) : StoreResult × PoDb :=
  let checksum := hash content
  match db.csvImports.find? (fun row => row.checksum = checksum) with
  | some row =>
      ({ id := row.id, isDuplicate := true, alreadyProcessed := row.processed,
         message := if row.processed then "CSV already imported and processed"
           else "CSV already imported but not processed" }, db)
  | none =>
      ({ id := db.nextId, isDuplicate := false, alreadyProcessed := false,
         message := "CSV imported successfully" },
       { db with
         csvImports := db.csvImports
           ++ [{ id := db.nextId, filename := filename, checksum := checksum,
                 processed := false }],
         nextId := db.nextId + 1 })

/-- `processCsvImport`'s closing
`UPDATE csv_imports SET processed = TRUE WHERE id = $1`. -/
def markImportProcessed (db : PoDb) (importId : ℕ) : PoDb :=
  { db with csvImports := db.csvImports.map (fun row =>
      if row.id = importId then { row with processed := true } else row) }

/-- The result object `importPoBills` answers with. -/
structure PoImportResult where
  isDuplicate : Bool
  importId : ℕ
  message : Option String
  bills : List Bill
  deriving DecidableEq, Repr

/-- `importPoBills`: record provenance metadata, run the duplicate gate,
and only parse bills (which may fail) for fresh content.  A duplicate is
answered with an `ok` result tagged `isDuplicate`, never a thrown
error.  `parseCsvLib` abstracts the `csv-parse` library. -/
def importPoBills (hash : String → String) (parseCsvLib : String → List Row)
    (fmtDate : Option String → String) (dueD : String → String → String)
    (db : PoDb) (content filename : String) :
    Except String PoImportResult × PoDb :=
  let rows := parseCsvLib content
  let db1 := { db with importMeta := db.importMeta
    ++ [{ source := "LocalCSV", kind := "po_bills", filename := filename,
          rowCount := rows.length }] }
  let resDb := storeCsvImport hash db1 filename content
  if resDb.1.isDuplicate then
    (.ok { isDuplicate := true, importId := resDb.1.id,
           message := some resDb.1.message, bills := [] }, resDb.2)
  else
    match parseBills fmtDate dueD rows with
    | .error e => (.error e, resDb.2)
    | .ok bills =>
        (.ok { isDuplicate := false, importId := resDb.1.id, message := none,
               bills := bills }, resDb.2)

/-- The fresh row `storeCsvImport` inserts for new content. -/
def freshCsvRow (idv : ℕ) (fname chk : String) : CsvImportRow :=
  { id := idv, filename := fname, checksum := chk, processed := false }

/-- `find?` looks into the appended tail once the head misses. -/
theorem find?_append_none {α : Type} (p : α → Bool) (l : List α) (a : α)
    (hl : l.find? p = none) (ha : p a = true) :
    (l ++ [a]).find? p = some a := by
  induction l with
  | nil => simp [List.find?, ha]
  | cons x t ih =>
      cases hx : p x with
      | true =>
          rw [List.find?_cons_of_pos _ hx] at hl
          cases hl
      | false =>
          rw [List.find?_cons_of_neg _ (by simp [hx])] at hl
          rw [List.cons_append, List.find?_cons_of_neg _ (by simp [hx])]
          exact ih hl

/-- The `csv_imports` table after `importPoBills`: untouched when the
checksum is already present, one fresh unprocessed row otherwise. -/
theorem importPoBills_csvImports (hash : String → String)
    (parseCsvLib : String → List Row) (fmtDate : Option String → String)
    (dueD : String → String → String) (db : PoDb) (content f : String) :
    (importPoBills hash parseCsvLib fmtDate dueD db content f).2.csvImports =
      (match db.csvImports.find? (fun row => row.checksum = hash content) with
        | some _ => db.csvImports
        | none => db.csvImports ++ [freshCsvRow db.nextId f (hash content)]) := by
  simp only [importPoBills, storeCsvImport]
  cases hf : db.csvImports.find? (fun row => row.checksum = hash content) with
  | some row => simp [hf]
  | none =>
      cases hp : parseBills fmtDate dueD (parseCsvLib content) <;>
        simp [hf, hp, freshCsvRow]

/-- The duplicate path of `importPoBills` answers `ok` with the
duplicate tag, the stored row's id and the processed-dependent message. -/
theorem importPoBills_dup (hash : String → String)
    (parseCsvLib : String → List Row) (fmtDate : Option String → String)
    (dueD : String → String → String) (db : PoDb) (content f : String)
    (row : CsvImportRow)
    (hrow : db.csvImports.find? (fun r => r.checksum = hash content) = some row) :
    (importPoBills hash parseCsvLib fmtDate dueD db content f).1 =
      .ok ⟨true, row.id,
        some (if row.processed then "CSV already imported and processed"
          else "CSV already imported but not processed"), []⟩ := by
  simp only [importPoBills, storeCsvImport]
  simp [hrow]

/-- C1: importing the same bytes a second time is answered with an `ok`
result tagged duplicate (not an error) that carries the stored row's
`processed` flag (directly in `storeCsvImport`'s `alreadyProcessed`, and
as the processed/unprocessed message on the import result), and performs
zero new writes to the `csv_imports` store; a first import of fresh
content inserts exactly one unprocessed row that the second import then
finds.  (Provenance metadata is recorded on every call by design and is
not part of the deduplicated store.) -/
theorem duplicate_import_gate (hash : String → String)
    (parseCsvLib : String → List Row) (fmtDate : Option String → String)
    (dueD : String → String → String) (db : PoDb) (content f1 f2 : String) :
    ((db.csvImports.find? (fun row => row.checksum = hash content)) = none →
      (importPoBills hash parseCsvLib fmtDate dueD db content f1).2.csvImports =
        db.csvImports ++ [freshCsvRow db.nextId f1 (hash content)] ∧
      (importPoBills hash parseCsvLib fmtDate dueD db content
          f1).2.csvImports.find? (fun row => row.checksum = hash content) =
        some (freshCsvRow db.nextId f1 (hash content))) ∧
    (∀ row, db.csvImports.find? (fun r => r.checksum = hash content) = some row →
      (storeCsvImport hash db f2 content).1.isDuplicate = true ∧
      (storeCsvImport hash db f2 content).1.alreadyProcessed = row.processed ∧
      (storeCsvImport hash db f2 content).2 = db ∧
      (importPoBills hash parseCsvLib fmtDate dueD db content f2).1 =
        .ok ⟨true, row.id,
          some (if row.processed then "CSV already imported and processed"
            else "CSV already imported but not processed"), []⟩ ∧
      (importPoBills hash parseCsvLib fmtDate dueD db content f2).2.csvImports =
        db.csvImports) := by
  constructor
  · intro hnone
    have h1 := importPoBills_csvImports hash parseCsvLib fmtDate dueD db
      content f1
    rw [hnone] at h1
    refine ⟨h1, ?_⟩
    rw [h1]
    exact find?_append_none _ _ _ hnone (by simp [freshCsvRow])
  · intro row hrow
    refine ⟨?_, ?_, ?_, importPoBills_dup hash parseCsvLib fmtDate dueD db
      content f2 row hrow, ?_⟩
    · simp [storeCsvImport, hrow]
    · simp [storeCsvImport, hrow]
    · simp [storeCsvImport, hrow]
    · have h1 := importPoBills_csvImports hash parseCsvLib fmtDate dueD db
        content f2
      rw [hrow] at h1
      exact h1

/-- The stored row of the demo store. -/
def demoDupRow : CsvImportRow :=
  { id := 7, filename := "a.csv", checksum := "BYTES", processed := true }

/-- A store already holding processed content with checksum `BYTES`. -/
def demoPoDb : PoDb :=
  { csvImports := [demoDupRow], importMeta := [], nextId := 8 }

/-- C1 witness: the gate applied with the identity checksum on a concrete
store already holding the same bytes, marked processed. -/
theorem duplicate_import_gate_witness :
    (importPoBills id (fun _ => []) demoFmt demoDueD demoPoDb
        "BYTES" "b.csv").1 =
      .ok ⟨true, 7, some "CSV already imported and processed", []⟩ ∧
    (importPoBills id (fun _ => []) demoFmt demoDueD demoPoDb
        "BYTES" "b.csv").2.csvImports = demoPoDb.csvImports := by
  obtain ⟨hdup, hproc, hst, hres, hcsv⟩ :=
    (duplicate_import_gate id (fun _ => []) demoFmt demoDueD demoPoDb
      "BYTES" "b.csv" "b.csv").2 demoDupRow (by rfl)
  constructor
  · rw [hres]
    rfl
  · exact hcsv

/-! ## `upsertInvoiceWithLines` (src/database.js lines 759–804)

The invoice row is keyed `ON CONFLICT (source_id, external_id)`; SQL
`NULL`s never conflict, so only a `some` external id can update in place.
Lines are replaced by `DELETE FROM invoice_lines WHERE invoice_id` then
per-line `INSERT`.  The customer upsert sub-call is out of this claim's
scope; the resolved `customer_id` is passed in, stored inside the
invoice's updatable payload. -/

/-- The updatable payload of an invoice row (every column the
`ON CONFLICT … DO UPDATE` clause overwrites, including `customer_id`). -/
structure InvoiceData where
  number : Option String
  customer_id : Option ℕ
  invoice_date : Option String
  due_date : Option String
  status : Option String
  currency : String
  subtotal : Option ℚ
  tax_total : Option ℚ
  total : Option ℚ
  balance : Option ℚ
  deriving DecidableEq, Repr

/-- One line of an invoice import. -/
structure InvLineData where
  item_code : Option String
  description : Option String
  quantity : Option ℚ
  unit_price : Option ℚ
  tax_code : Option String
  line_total : Option ℚ
  deriving DecidableEq, Repr

/-- A stored `invoices` row. -/
structure InvoiceRow where
  id : ℕ
  source_id : ℕ
  external_id : Option String
  data : InvoiceData
  deriving DecidableEq, Repr

/-- A stored `invoice_lines` row. -/
structure InvoiceLineRow where
  invoice_id : ℕ
  item_id : Option ℕ
  line : InvLineData
  deriving DecidableEq, Repr

/-- The slice of database state the invoice upsert touches. -/
structure InvDb where
  invoices : List InvoiceRow
  invoice_lines : List InvoiceLineRow
  catalog : List (ℕ × String × ℕ)
  ledger : List (ℕ × Option String)
  nextInvoiceId : ℕ
  deriving DecidableEq, Repr

/-- `catalog_items` lookup by `(source_id, item_code)`, only attempted
for a truthy item code. -/
def resolveItemId (cat : List (ℕ × String × ℕ)) (s : ℕ)
    (oc : Option String) : Option ℕ :=
  if truthy oc then
    match oc with
    | some code => (cat.find? (fun t => t.1 = s ∧ t.2.1 = code)).map
        (fun t => t.2.2)
    | none => none
  else none

/-- The stored line row built for one imported line. -/
def mkInvLineRow (cat : List (ℕ × String × ℕ)) (s invId : ℕ)
    (ln : InvLineData) : InvoiceLineRow :=
  { invoice_id := invId, item_id := resolveItemId cat s ln.item_code,
    line := ln }

/-- The invoice-key conflict predicate. -/
def invKeyPred (s : ℕ) (e : String) : InvoiceRow → Bool :=
  fun row => row.source_id = s ∧ row.external_id = some e

/-- A freshly inserted invoice row. -/
def newInvoiceRow (idv s : ℕ) (extId : Option String)
    (inv : InvoiceData) : InvoiceRow :=
  { id := idv, source_id := s, external_id := extId, data := inv }

/-- `upsertInvoiceWithLines` for source `s`: conflict-or-insert the
invoice row, wholesale-replace its lines (delete by `invoice_id`, then
insert the new set in order), and best-effort insert one ledger
projection keyed `(source_id, external_id ‖ number)` (`DO NOTHING` on
conflict; a `NULL` key never conflicts). -/
def upsertInvoiceWithLines (db : InvDb) (s : ℕ) (extId : Option String)
    (inv : InvoiceData) (lines : List InvLineData) : InvDb × ℕ :=
  let conflict := match extId with
    | none => none
    | some e => db.invoices.find? (invKeyPred s e)
  let idAndInvoices : ℕ × List InvoiceRow := match conflict with
    | some row =>
        (row.id, db.invoices.map (fun r =>
          if r.id = row.id then { r with data := inv } else r))
    | none =>
        (db.nextInvoiceId, db.invoices ++
          [newInvoiceRow db.nextInvoiceId s extId inv])
  let invoiceId := idAndInvoices.1
  let newLines := db.invoice_lines.filter (fun l => l.invoice_id ≠ invoiceId)
    ++ lines.map (mkInvLineRow db.catalog s invoiceId)
  let ledgerKey := jsOr extId (jsOr inv.number none)
  let ledger := match ledgerKey with
    | none => db.ledger ++ [(s, none)]
    | some e =>
        if db.ledger.any (fun p => p.1 = s ∧ p.2 = some e) then db.ledger
        else db.ledger ++ [(s, some e)]
  let nextId : ℕ := match conflict with
    | some _ => db.nextInvoiceId
    | none => db.nextInvoiceId + 1
  let db' : InvDb :=
    { invoices := idAndInvoices.2, invoice_lines := newLines,
      catalog := db.catalog, ledger := ledger, nextInvoiceId := nextId }
  (db', invoiceId)

/-- The stored line set after one upsert: everything not owned by the
target invoice, then the new lines in import order. -/
theorem upsert_lines_shape (db : InvDb) (s : ℕ) (extId : Option String)
    (inv : InvoiceData) (lines : List InvLineData) :
    (upsertInvoiceWithLines db s extId inv lines).1.invoice_lines =
      db.invoice_lines.filter (fun l =>
        l.invoice_id ≠ (upsertInvoiceWithLines db s extId inv lines).2)
      ++ lines.map (mkInvLineRow db.catalog s
        (upsertInvoiceWithLines db s extId inv lines).2) := rfl

/-- The catalog is untouched by an invoice upsert. -/
theorem upsert_catalog (db : InvDb) (s : ℕ) (extId : Option String)
    (inv : InvoiceData) (lines : List InvLineData) :
    (upsertInvoiceWithLines db s extId inv lines).1.catalog = db.catalog := rfl

/-- The conflict predicate only reads the key fields, which the
update-in-place preserves. -/
theorem invKeyPred_update (s : ℕ) (e : String) (id0 : ℕ) (inv : InvoiceData)
    (r : InvoiceRow) :
    invKeyPred s e (if r.id = id0 then { r with data := inv } else r) =
      invKeyPred s e r := by
  by_cases h : r.id = id0 <;> simp [invKeyPred, h]

/-- The target id of an upsert hitting an existing key. -/
theorem upsert_id_conflict (db : InvDb) (s : ℕ) (e : String)
    (inv : InvoiceData) (lines : List InvLineData) (row : InvoiceRow)
    (h : db.invoices.find? (invKeyPred s e) = some row) :
    (upsertInvoiceWithLines db s (some e) inv lines).2 = row.id := by
  simp [upsertInvoiceWithLines, h]

/-- The invoice table of an upsert hitting an existing key. -/
theorem upsert_invoices_conflict (db : InvDb) (s : ℕ) (e : String)
    (inv : InvoiceData) (lines : List InvLineData) (row : InvoiceRow)
    (h : db.invoices.find? (invKeyPred s e) = some row) :
    (upsertInvoiceWithLines db s (some e) inv lines).1.invoices =
      db.invoices.map (fun r =>
        if r.id = row.id then { r with data := inv } else r) := by
  simp [upsertInvoiceWithLines, h]

/-- The target id of an upsert of a fresh key. -/
theorem upsert_id_fresh (db : InvDb) (s : ℕ) (e : String)
    (inv : InvoiceData) (lines : List InvLineData)
    (h : db.invoices.find? (invKeyPred s e) = none) :
    (upsertInvoiceWithLines db s (some e) inv lines).2 = db.nextInvoiceId := by
  simp [upsertInvoiceWithLines, h]

/-- The invoice table of an upsert of a fresh key. -/
theorem upsert_invoices_fresh (db : InvDb) (s : ℕ) (e : String)
    (inv : InvoiceData) (lines : List InvLineData)
    (h : db.invoices.find? (invKeyPred s e) = none) :
    (upsertInvoiceWithLines db s (some e) inv lines).1.invoices =
      db.invoices ++ [newInvoiceRow db.nextInvoiceId s (some e) inv] := by
  simp [upsertInvoiceWithLines, h]

/-- A second upsert of the same `(source, external_id)` key lands on the
same invoice row id. -/
theorem upsert_same_key_same_id (db : InvDb) (s : ℕ) (e : String)
    (inv1 inv2 : InvoiceData) (lines1 lines2 : List InvLineData) :
    (upsertInvoiceWithLines
      (upsertInvoiceWithLines db s (some e) inv1 lines1).1 s (some e)
      inv2 lines2).2 =
    (upsertInvoiceWithLines db s (some e) inv1 lines1).2 := by
  cases h : db.invoices.find? (invKeyPred s e) with
  | some row =>
      have hfind2 : ((upsertInvoiceWithLines db s (some e) inv1
          lines1).1.invoices).find? (invKeyPred s e) =
          some { row with data := inv1 } := by
        rw [upsert_invoices_conflict db s e inv1 lines1 row h, List.find?_map]
        have hcomp : (invKeyPred s e) ∘ (fun r =>
            if r.id = row.id then { r with data := inv1 } else r) =
            invKeyPred s e := by
          funext r
          exact invKeyPred_update s e row.id inv1 r
        rw [hcomp, h]
        simp
      rw [upsert_id_conflict _ s e inv2 lines2 _ hfind2,
        upsert_id_conflict db s e inv1 lines1 row h]
  | none =>
      have hfind2 : ((upsertInvoiceWithLines db s (some e) inv1
          lines1).1.invoices).find? (invKeyPred s e) =
          some (newInvoiceRow db.nextInvoiceId s (some e) inv1) := by
        rw [upsert_invoices_fresh db s e inv1 lines1 h]
        exact find?_append_none _ _ _ h (by simp [invKeyPred, newInvoiceRow])
      rw [upsert_id_conflict _ s e inv2 lines2 _ hfind2,
        upsert_id_fresh db s e inv1 lines1 h]
      rfl

/-- C9: re-importing an invoice with the same `(source, external_id)` and
a modified line set replaces the stored lines wholesale: the invoice ends
up with exactly the new import's lines (delete-then-insert, in order), no
line of the earlier import survives, and other invoices' lines are
untouched. -/
theorem invoice_reimport_replaces_lines (db : InvDb) (s : ℕ) (e : String)
    (inv1 inv2 : InvoiceData) (lines1 lines2 : List InvLineData) :
    ∀ invId, invId = (upsertInvoiceWithLines db s (some e) inv1 lines1).2 →
      (upsertInvoiceWithLines
          (upsertInvoiceWithLines db s (some e) inv1 lines1).1 s (some e)
          inv2 lines2).1.invoice_lines.filter
            (fun l => l.invoice_id = invId) =
        lines2.map (mkInvLineRow db.catalog s invId) ∧
      (upsertInvoiceWithLines
          (upsertInvoiceWithLines db s (some e) inv1 lines1).1 s (some e)
          inv2 lines2).1.invoice_lines.filter
            (fun l => l.invoice_id ≠ invId) =
        db.invoice_lines.filter (fun l => l.invoice_id ≠ invId) := by
  intro invId hinv
  have hid2 := upsert_same_key_same_id db s e inv1 inv2 lines1 lines2
  rw [← hinv] at hid2
  have hl2 := upsert_lines_shape
    (upsertInvoiceWithLines db s (some e) inv1 lines1).1 s (some e) inv2 lines2
  rw [hid2, upsert_catalog] at hl2
  have hl1 := upsert_lines_shape db s (some e) inv1 lines1
  rw [← hinv] at hl1
  have hmid : ((upsertInvoiceWithLines db s (some e) inv1
      lines1).1.invoice_lines).filter (fun l => l.invoice_id ≠ invId) =
      db.invoice_lines.filter (fun l => l.invoice_id ≠ invId) := by
    rw [hl1, List.filter_append]
    have h1 : (db.invoice_lines.filter (fun l => l.invoice_id ≠ invId)).filter
        (fun l => l.invoice_id ≠ invId) =
        db.invoice_lines.filter (fun l => l.invoice_id ≠ invId) := by
      rw [List.filter_filter]
      apply List.filter_congr
      intro x _
      simp
    have h2 : (lines1.map (mkInvLineRow db.catalog s invId)).filter
        (fun l => l.invoice_id ≠ invId) = [] := by
      rw [List.filter_eq_nil_iff]
      intro x hx
      obtain ⟨ln, _, rfl⟩ := List.mem_map.mp hx
      simp [mkInvLineRow]
    rw [h1, h2, List.append_nil]
  rw [hl2, hmid]
  constructor
  · rw [List.filter_append]
    have h1 : (db.invoice_lines.filter (fun l => l.invoice_id ≠ invId)).filter
        (fun l => l.invoice_id = invId) = [] := by
      rw [List.filter_filter, List.filter_eq_nil_iff]
      intro x _
      simp
    have h2 : (lines2.map (mkInvLineRow db.catalog s invId)).filter
        (fun l => l.invoice_id = invId) =
        lines2.map (mkInvLineRow db.catalog s invId) := by
      rw [List.filter_eq_self]
      intro x hx
      obtain ⟨ln, _, rfl⟩ := List.mem_map.mp hx
      simp [mkInvLineRow]
    rw [h1, h2, List.nil_append]
  · rw [List.filter_append]
    have h1 : (db.invoice_lines.filter (fun l => l.invoice_id ≠ invId)).filter
        (fun l => l.invoice_id ≠ invId) =
        db.invoice_lines.filter (fun l => l.invoice_id ≠ invId) := by
      rw [List.filter_filter]
      apply List.filter_congr
      intro x _
      simp
    have h2 : (lines2.map (mkInvLineRow db.catalog s invId)).filter
        (fun l => l.invoice_id ≠ invId) = [] := by
      rw [List.filter_eq_nil_iff]
      intro x hx
      obtain ⟨ln, _, rfl⟩ := List.mem_map.mp hx
      simp [mkInvLineRow]
    rw [h1, h2, List.append_nil]

/-- An empty invoice store. -/
def emptyInvDb : InvDb :=
  { invoices := [], invoice_lines := [], catalog := [], ledger := [],
    nextInvoiceId := 1 }

/-- A minimal invoice payload for the witness. -/
def demoInvData : InvoiceData :=
  { number := some "INV-1", customer_id := none, invoice_date := none,
    due_date := none, status := none, currency := "USD", subtotal := none,
    tax_total := none, total := some 10, balance := none }

/-- Two different line payloads for the witness. -/
def demoLineA : InvLineData :=
  { item_code := none, description := some "old line", quantity := some 1,
    unit_price := some 10, tax_code := none, line_total := some 10 }

def demoLineB : InvLineData :=
  { item_code := none, description := some "new line", quantity := some 2,
    unit_price := some 5, tax_code := none, line_total := some 10 }

/-- C9 witness: re-importing external id `H1` with a different line set
leaves exactly the new single line attached. -/
theorem invoice_reimport_replaces_lines_witness :
    (upsertInvoiceWithLines
        (upsertInvoiceWithLines emptyInvDb 1 (some "H1") demoInvData
          [demoLineA, demoLineA]).1 1 (some "H1") demoInvData
        [demoLineB]).1.invoice_lines.filter (fun l => l.invoice_id = 1) =
      [mkInvLineRow emptyInvDb.catalog 1 1 demoLineB] := by
  have h := (invoice_reimport_replaces_lines emptyInvDb 1 "H1" demoInvData
    demoInvData [demoLineA, demoLineA] [demoLineB] 1 (by rfl)).1
  rw [h]
  rfl

/-! ## `insertBankTransactions` (src/database.js lines 806–842)

Per-candidate `INSERT … ON CONFLICT (source_id, external_id) DO NOTHING`
into `bank_transactions`, a best-effort ledger projection with the same
conflict policy, and a link row when both inserts landed.  The returned
count is `txns.length`, computed from the *input* list. -/

/-- A stored `bank_transactions` row. -/
structure BankTxnRow where
  id : ℕ
  source_id : ℕ
  external_id : Option String
  amount : ℚ
  checksum : Option String
  deriving DecidableEq, Repr

/-- The slice of database state the bank insert touches. -/
structure BankDb where
  bank_transactions : List BankTxnRow
  ledger : List (ℕ × ℕ × Option String)
  links : List (ℕ × ℕ)
  nextTxnId : ℕ
  nextLedgerId : ℕ
  deriving DecidableEq, Repr

/-- Does `(source, some e)` already exist among the stored rows?  (SQL
`NULL` external ids never conflict.) -/
def bankConflict (rows : List BankTxnRow) (s : ℕ) : Option String → Bool
  | none => false
  | some e => rows.any (fun row => row.source_id = s ∧ row.external_id = some e)

/-- Ledger-side conflict on `(source_id, external_id)`. -/
def ledgerConflict (rows : List (ℕ × ℕ × Option String)) (s : ℕ) :
    Option String → Bool
  | none => false
  | some e => rows.any (fun row => row.2.1 = s ∧ row.2.2 = some e)

/-- One candidate processed inside the insert loop. -/
def insertBankStep (s : ℕ) (db : BankDb) (t : BankTxnCand) : BankDb :=
  let externalId := jsOr t.external_id none
  let checksum := if t.checksum ≠ "" then some t.checksum else none
  let bankHit := bankConflict db.bank_transactions s externalId
  let bankRows := if bankHit then db.bank_transactions
    else db.bank_transactions ++
      [{ id := db.nextTxnId, source_id := s, external_id := externalId,
         amount := t.amount, checksum := checksum }]
  let ledgerHit := ledgerConflict db.ledger s externalId
  let ledgerRows := if ledgerHit then db.ledger
    else db.ledger ++ [(db.nextLedgerId, s, externalId)]
  let links := if bankHit || ledgerHit then db.links
    else db.links ++ [(db.nextLedgerId, db.nextTxnId)]
  { bank_transactions := bankRows, ledger := ledgerRows, links := links,
    nextTxnId := db.nextTxnId + 1, nextLedgerId := db.nextLedgerId + 1 }

/-- `insertBankTransactions`: run the loop, then report
`{ count: txns.length }` — the length of the *candidate* list, whatever
the conflict clause skipped. -/
def insertBankTransactions (db : BankDb) (s : ℕ)
    (txns : List BankTxnCand) : BankDb × ℕ :=
  (txns.foldl (insertBankStep s) db, txns.length)

/-- C10: the reported count is always the number of candidate
transactions, even though a candidate whose `(source, external_id)` is
already stored inserts no row — so the reported imported count can exceed
the number of rows actually inserted (concretely: one duplicate
candidate reports `1` while the table is unchanged). -/
theorem insertBankTransactions_count (db : BankDb) (s : ℕ)
    (txns : List BankTxnCand) :
    (insertBankTransactions db s txns).2 = txns.length ∧
    (∀ t : BankTxnCand, ∀ e : String, jsOr t.external_id none = some e →
      bankConflict db.bank_transactions s (some e) = true →
      (insertBankTransactions db s [t]).1.bank_transactions =
          db.bank_transactions ∧
        (insertBankTransactions db s [t]).2 = 1) := by
  refine ⟨rfl, ?_⟩
  intro t e hext hconf
  constructor
  · simp only [insertBankTransactions, List.foldl_cons, List.foldl_nil,
      insertBankStep, hext, hconf]
    simp
  · rfl

/-- A stored bank row with external id `X-DR` under source `1`. -/
def demoBankRow : BankTxnRow :=
  { id := 4, source_id := 1, external_id := some "X-DR", amount := -50,
    checksum := none }

/-- A bank store already holding `(source 1, external id X-DR)`. -/
def demoBankDb : BankDb :=
  { bank_transactions := [demoBankRow], ledger := [], links := [],
    nextTxnId := 5, nextLedgerId := 1 }

/-- A candidate colliding with the stored external id. -/
def demoBankTxn : BankTxnCand :=
  { external_id := some "X-DR", txn_date := none, amount := -50,
    currency := "USD", description := "d", memo := "", balance_after := none,
    checksum := "ck" }

/-- C10 witness: the count theorem applied to one duplicate candidate —
reported count `1`, zero rows inserted. -/
theorem insertBankTransactions_count_witness :
    (insertBankTransactions demoBankDb 1 [demoBankTxn]).1.bank_transactions =
      demoBankDb.bank_transactions ∧
    (insertBankTransactions demoBankDb 1 [demoBankTxn]).2 = 1 := by
  exact (insertBankTransactions_count demoBankDb 1 [demoBankTxn]).2
    demoBankTxn "X-DR" (by rfl) (by rfl)

/-! ## Interchange (IIF) serialization
(src/exporter.js `generateBillsIif` lines 1–18, src/server.js
`generateIif` lines 189–202)

Both generators emit the same tab-separated rows; the exporter module
joins them with `\r\n`, the in-server generator with bare `\n`.  The
`Number(...).toFixed(2)` and `String(quantity)` formatters are function
parameters. -/

/-- A character that may sit inside an interchange field: not a tab,
newline, carriage return or double quote. -/
def cleanChar (c : Char) : Bool :=
  c ≠ '\t' && c ≠ '\n' && c ≠ '\r' && c ≠ '"'

/-- All characters of the string are interchange-safe. -/
def cleanStr (s : String) : Bool := s.toList.all cleanChar

/-- No carriage return or line feed anywhere in the string. -/
def noCRLF (s : String) : Bool :=
  s.toList.all (fun c => c ≠ '\r' && c ≠ '\n')

/-- JS `Array.prototype.join(sep)`. -/
def joinWith (sep : String) : List String → String
  | [] => ""
  | [x] => x
  | x :: y :: xs => x ++ sep ++ joinWith sep (y :: xs)

/-- One tab-separated row. -/
def tabJoin (fields : List String) : String := joinWith "\t" fields

/-- The `!TRNS` header row. -/
def iifTrnsHeader : String :=
  "!TRNS\tTRNSID\tTRNSTYPE\tDATE\tACCNT\tNAME\tCLASS\tAMOUNT\tDOCNUM\tMEMO\tCLEAR\tTOPRINT\tADDR5\tDUEDATE\tTERMS"

/-- The `!SPL` header row. -/
def iifSplHeader : String :=
  "!SPL\tSPLID\tTRNSTYPE\tDATE\tACCNT\tNAME\tCLASS\tAMOUNT\tDOCNUM\tMEMO\tCLEAR\tQNTY\tPRICE\tINVITEM"

/-- `String(line.quantity || '')`. -/
def qtyStr (numStr : ℚ → String) (q : ℚ) : String :=
  if q = 0 then "" else numStr q

/-- The bill-level `TRNS` row (negative total amount). -/
def billTrnsRow (apAcc : String) (toFixed2 : ℚ → String) (b : Bill) : String :=
  tabJoin ["TRNS", "", "BILL", b.date, apAcc, b.vendor, "",
    "-" ++ toFixed2 b.total_amount, b.ref_num, "", "N", "N", "",
    b.due_date, b.terms]

/-- The per-line `SPL` row (positive line amount). -/
def billSplRow (invAssetAcc : String) (toFixed2 : ℚ → String)
    (numStr : ℚ → String) (b : Bill) (l : LineItem) : String :=
  tabJoin ["SPL", "", "BILL", b.date, invAssetAcc, "", "",
    toFixed2 l.line_amount, "", l.description, "N",
    qtyStr numStr l.quantity, toFixed2 l.unit_cost, l.item]

/-- All rows of a bills interchange file, in order. -/
def iifBillRows (apAcc invAssetAcc : String) (toFixed2 : ℚ → String)
    (numStr : ℚ → String) (bills : List Bill) : List String :=
  [iifTrnsHeader, iifSplHeader, "!ENDTRNS"] ++
    (bills.map (fun b => billTrnsRow apAcc toFixed2 b ::
      (b.lines.map (billSplRow invAssetAcc toFixed2 numStr b)
        ++ ["ENDTRNS"]))).flatten

/-- `generateBillsIif` (exporter module): CRLF separators and trailer. -/
def generateBillsIif (apAcc invAssetAcc : String) (toFixed2 : ℚ → String)
    (numStr : ℚ → String) (bills : List Bill) : String :=
  joinWith "\r\n" (iifBillRows apAcc invAssetAcc toFixed2 numStr bills)
    ++ "\r\n"

/-- `generateIif` (in-server legacy generator): identical rows with the
default account names, joined with bare LF. -/
def generateIif (toFixed2 : ℚ → String) (numStr : ℚ → String)
    (bills : List Bill) : String :=
  joinWith "\n" (iifBillRows "Accounts Payable" "Inventory Asset" toFixed2
    numStr bills) ++ "\n"

/-- Every `\r` is immediately followed by `\n` and every `\n` immediately
preceded by `\r` — i.e. all line breaks are CRLF pairs. -/
def crlfOnly : List Char → Bool
  | '\r' :: '\n' :: rest => crlfOnly rest
  | '\r' :: _ => false
  | '\n' :: _ => false
  | _ :: rest => crlfOnly rest
  | [] => true

/-- Sanitized values never contain a tab, CR, LF or double quote. -/
theorem sanitize_clean (v : Option String) : cleanStr (sanitize v) = true := by
  cases v with
  | none => rfl
  | some s =>
      rw [cleanStr, List.all_eq_true]
      intro c hc
      have hc' : c ∈ (s.toList.map (fun c =>
          if c = '\t' ∨ c = '\r' ∨ c = '\n' then ' ' else c)).filter
          (fun c => c ≠ '"') := hc
      obtain ⟨hmem, hq⟩ := List.mem_filter.mp hc'
      obtain ⟨a, _, ha⟩ := List.mem_map.mp hmem
      by_cases hcase : a = '\t' ∨ a = '\r' ∨ a = '\n'
      · rw [if_pos hcase] at ha
        rw [← ha]
        rfl
      · rw [if_neg hcase] at ha
        push_neg at hcase
        rw [← ha]
        simp only [cleanChar, Bool.and_eq_true, decide_eq_true_eq, ne_eq]
        rw [← ha] at hq
        simp only [ne_eq, decide_not] at hq
        refine ⟨⟨⟨by simpa using hcase.1, by simpa using hcase.2.2⟩,
          by simpa using hcase.2.1⟩, by simpa using hq⟩

/-- Appending clean strings stays clean. -/
theorem cleanStr_append (a b : String) (ha : cleanStr a = true)
    (hb : cleanStr b = true) : cleanStr (a ++ b) = true := by
  rw [cleanStr] at ha hb ⊢
  rw [List.all_eq_true] at ha hb ⊢
  intro c hc
  have : c ∈ a.toList ++ b.toList := by
    simpa [String.toList, String.data_append] using hc
  rcases List.mem_append.mp this with h | h
  · exact ha c h
  · exact hb c h

/-- Characters of a clean string are interchange-safe. -/
theorem cleanStr_mem (s : String) (hs : cleanStr s = true) :
    ∀ c ∈ s.toList, cleanChar c = true :=
  List.all_eq_true.mp hs

/-- Inclusion of character lists preserves cleanliness. -/
theorem cleanStr_of_subset (s t : String)
    (hsub : ∀ c ∈ s.toList, c ∈ t.toList) (ht : cleanStr t = true) :
    cleanStr s = true := by
  rw [cleanStr, List.all_eq_true]
  intro c hc
  exact cleanStr_mem t ht c (hsub c hc)

/-- Clean strings carry no CR or LF. -/
theorem noCRLF_of_clean (s : String) (hs : cleanStr s = true) :
    noCRLF s = true := by
  rw [noCRLF, List.all_eq_true]
  intro c hc
  have h := cleanStr_mem s hs c hc
  simp only [cleanChar, Bool.and_eq_true, decide_eq_true_eq] at h
  simp only [Bool.and_eq_true, decide_eq_true_eq]
  tauto

/-- Inferred terms are sanitized (or empty, which is clean). -/
theorem inferTerms_clean : ∀ rows : List Row, cleanStr (inferTerms rows) = true
  | [] => rfl
  | r :: rest => by
      rw [inferTerms]
      by_cases h : sanitize (jsOr (rowGet r "Terms")
          (jsOr (rowGet r "Payment Terms") (rowGet r "Term"))) ≠ ""
      · rw [if_pos h]
        exact sanitize_clean _
      · rw [if_neg h]
        exact inferTerms_clean rest

/-- Every part produced by the splitter draws its characters from the
accumulator or the input. -/
theorem splitBarsAux_chars : ∀ (n : ℕ) (l acc : List Char), l.length ≤ n →
    ∀ part ∈ splitBarsAux acc l, ∀ c ∈ part, c ∈ acc ∨ c ∈ l := by
  intro n
  induction n with
  | zero =>
      intro l acc hl part hp c hc
      have hnil : l = [] := List.length_eq_zero.mp (Nat.le_zero.mp hl)
      subst hnil
      have : part = acc := by simpa [splitBarsAux] using hp
      subst this
      exact Or.inl hc
  | succ n ih =>
      intro l acc hl part hp c hc
      cases l with
      | nil =>
          have : part = acc := by simpa [splitBarsAux] using hp
          subst this
          exact Or.inl hc
      | cons c1 rest =>
          cases rest with
          | nil =>
              have hpart : part = acc ++ [c1] := by
                simpa [splitBarsAux] using hp
              subst hpart
              rcases List.mem_append.mp hc with h | h
              · exact Or.inl h
              · exact Or.inr (by simpa using h)
          | cons c2 rest2 =>
              by_cases hbb : c1 = '|' ∧ c2 = '|'
              · obtain ⟨rfl, rfl⟩ := hbb
                have hp' : part ∈ acc :: splitBarsAux [] rest2 := hp
                rcases List.mem_cons.mp hp' with rfl | hmem
                · exact Or.inl hc
                · have hlen : rest2.length ≤ n := by
                    simp only [List.length_cons] at hl
                    omega
                  rcases ih rest2 [] hlen part hmem c hc with h | h
                  · cases h
                  · exact Or.inr
                      (List.mem_cons_of_mem _ (List.mem_cons_of_mem _ h))
              · have hlen : (c2 :: rest2).length ≤ n := by
                  simp only [List.length_cons] at hl ⊢
                  omega
                have hstep : splitBarsAux acc (c1 :: c2 :: rest2) =
                    splitBarsAux (acc ++ [c1]) (c2 :: rest2) := by
                  rcases not_and_or.mp hbb with h | h
                  · simp [splitBarsAux, h]
                  · simp [splitBarsAux, h]
                rw [hstep] at hp
                rcases ih (c2 :: rest2) (acc ++ [c1]) hlen part hp c hc with h | h
                · rcases List.mem_append.mp h with h' | h'
                  · exact Or.inl h'
                  · have hcc : c = c1 := by simpa using h'
                    exact Or.inr (by simp [hcc])
                · exact Or.inr (List.mem_cons_of_mem _ h)

/-- String-level corollary of `splitBarsAux_chars`. -/
theorem splitOnBars_chars (s part : String) (hp : part ∈ splitOnBars s) :
    ∀ c ∈ part.toList, c ∈ s.toList := by
  intro c hc
  obtain ⟨cs, hcs, hpe⟩ := List.mem_map.mp hp
  have hc' : c ∈ cs := by
    rw [← hpe] at hc
    exact hc
  have := splitBarsAux_chars s.toList.length s.toList [] le_rfl cs hcs c hc'
  rcases this with h | h
  · cases h
  · exact h

/-- Skipping one CR/LF-free line and its CRLF terminator. -/
theorem crlfOnly_skip_line : ∀ (l : List Char),
    (∀ c ∈ l, c ≠ '\r' ∧ c ≠ '\n') → ∀ rest : List Char,
    crlfOnly (l ++ '\r' :: '\n' :: rest) = crlfOnly rest := by
  intro l
  induction l with
  | nil =>
      intro _ rest
      rfl
  | cons c t ih =>
      intro h rest
      have hc := h c (List.mem_cons_self c t)
      have hstep : crlfOnly (c :: (t ++ '\r' :: '\n' :: rest)) =
          crlfOnly (t ++ '\r' :: '\n' :: rest) := by
        cases htail : t ++ '\r' :: '\n' :: rest with
        | nil => cases t <;> simp at htail
        | cons d rest2 => simp [crlfOnly, hc.1, hc.2]
      rw [List.cons_append, hstep]
      exact ih (fun x hx => h x (List.mem_cons_of_mem _ hx)) rest

/-- A file whose rows are CR/LF-free, joined with CRLF and terminated
with CRLF, contains only CRLF line breaks. -/
theorem crlfOnly_join : ∀ (rows : List String),
    (∀ s ∈ rows, noCRLF s = true) →
    crlfOnly ((joinWith "\r\n" rows ++ "\r\n").toList) = true := by
  intro rows
  induction rows with
  | nil =>
      intro _
      rfl
  | cons x xs ih =>
      intro h
      have hx : ∀ c ∈ x.toList, c ≠ '\r' ∧ c ≠ '\n' := by
        intro c hc
        have := List.all_eq_true.mp (h x (List.mem_cons_self x xs)) c hc
        simp only [Bool.and_eq_true, decide_eq_true_eq] at this
        exact this
      cases xs with
      | nil =>
          have hlist : (joinWith "\r\n" [x] ++ "\r\n").toList =
              x.toList ++ '\r' :: '\n' :: [] := by
            simp [joinWith, String.toList, String.data_append]
          rw [hlist, crlfOnly_skip_line x.toList hx]
          rfl
      | cons y ys =>
          have hlist : (joinWith "\r\n" (x :: y :: ys) ++ "\r\n").toList =
              x.toList ++ '\r' :: '\n' ::
                (joinWith "\r\n" (y :: ys) ++ "\r\n").toList := by
            simp [joinWith, String.toList, String.data_append]
          rw [hlist, crlfOnly_skip_line x.toList hx]
          exact ih (fun s hs => h s (List.mem_cons_of_mem _ hs))

/-- A tab-joined row of CR/LF-free fields is CR/LF-free. -/
theorem noCRLF_tabJoin : ∀ (fields : List String),
    (∀ f ∈ fields, noCRLF f = true) → noCRLF (tabJoin fields) = true := by
  intro fields
  induction fields with
  | nil =>
      intro _
      rfl
  | cons x xs ih =>
      intro h
      cases xs with
      | nil => exact h x (List.mem_cons_self x [])
      | cons y ys =>
          have hx := h x (List.mem_cons_self x (y :: ys))
          have hrest : noCRLF (tabJoin (y :: ys)) = true :=
            ih (fun f hf => h f (List.mem_cons_of_mem _ hf))
          rw [tabJoin, joinWith]
          rw [noCRLF, List.all_eq_true]
          intro c hc
          have hc' : c ∈ x.toList ++ '\t' :: (joinWith "\t" (y :: ys)).toList := by
            simpa [String.toList, String.data_append] using hc
          rcases List.mem_append.mp hc' with h1 | h1
          · exact List.all_eq_true.mp hx c h1
          · rcases List.mem_cons.mp h1 with rfl | h2
            · rfl
            · exact List.all_eq_true.mp hrest c h2

/-- Field projections of a built bill (definitional unfoldings). -/
theorem mkPoBill_vendor (dueD : String → String → String) (ic qc cc : String)
    (p : String × List Row) :
    (mkPoBill dueD ic qc cc p).vendor = (splitOnBars p.1).getD 0 "" := rfl

theorem mkPoBill_ref (dueD : String → String → String) (ic qc cc : String)
    (p : String × List Row) :
    (mkPoBill dueD ic qc cc p).ref_num = (splitOnBars p.1).getD 1 "" := rfl

theorem mkPoBill_date (dueD : String → String → String) (ic qc cc : String)
    (p : String × List Row) :
    (mkPoBill dueD ic qc cc p).date = (splitOnBars p.1).getD 2 "" := rfl

theorem mkPoBill_terms (dueD : String → String → String) (ic qc cc : String)
    (p : String × List Row) :
    (mkPoBill dueD ic qc cc p).terms =
      (if inferTerms p.2 ≠ "" then inferTerms p.2 else "Due upon receipt") := rfl

theorem mkPoBill_due (dueD : String → String → String) (ic qc cc : String)
    (p : String × List Row) :
    (mkPoBill dueD ic qc cc p).due_date =
      dueD ((splitOnBars p.1).getD 2 "")
        (if inferTerms p.2 ≠ "" then inferTerms p.2 else "Due upon receipt") := rfl

theorem mkPoBill_lines (dueD : String → String → String) (ic qc cc : String)
    (p : String × List Row) :
    (mkPoBill dueD ic qc cc p).lines = p.2.map (mkPoLine ic qc cc) := rfl

/-- A kept key names the row's joined key. -/
theorem poKeptKey_some_eq (fmtDate : Option String → String) (vc rc : String)
    (r : Row) (k : String) (h : poKeptKey fmtDate vc rc r = some k) :
    k = poRowKey fmtDate vc rc r := by
  unfold poKeptKey at h
  split at h
  · cases h
  · exact (Option.some_inj.mp h).symm

/-- All characters of a kept row's key are interchange-safe, given a
clean date backend. -/
theorem poRowKey_clean (fmtDate : Option String → String) (vc rc : String)
    (r : Row) (hfmt : ∀ o, cleanStr (fmtDate o) = true) :
    cleanStr (poRowKey fmtDate vc rc r) = true := by
  unfold poRowKey
  refine cleanStr_append _ _ (cleanStr_append _ _ (cleanStr_append _ _
    (cleanStr_append _ _ ?_ ?_) ?_) ?_) ?_
  · exact sanitize_clean _
  · rfl
  · exact sanitize_clean _
  · rfl
  · exact hfmt _

/-- Any `getD`-selected part of a clean key is clean. -/
theorem splitOnBars_getD_clean (s : String) (i : ℕ)
    (hs : cleanStr s = true) :
    cleanStr ((splitOnBars s).getD i "") = true := by
  by_cases hi : i < (splitOnBars s).length
  · have hmem : (splitOnBars s).getD i "" ∈ splitOnBars s := by
      rw [List.getD_eq_getElem (splitOnBars s) "" hi]
      exact (splitOnBars s).getElem_mem hi
    exact cleanStr_of_subset _ _ (splitOnBars_chars s _ hmem) hs
  · rw [List.getD_eq_default (splitOnBars s) "" (Nat.le_of_not_lt hi)]
    rfl

/-- Appending CR/LF-free strings stays CR/LF-free. -/
theorem noCRLF_append (a b : String) (ha : noCRLF a = true)
    (hb : noCRLF b = true) : noCRLF (a ++ b) = true := by
  rw [noCRLF, List.all_eq_true] at ha hb ⊢
  intro c hc
  have : c ∈ a.toList ++ b.toList := by
    simpa [String.toList, String.data_append] using hc
  rcases List.mem_append.mp this with h | h
  · exact ha c h
  · exact hb c h

/-- All string fields of a bill are free of tab, newline, CR and quote. -/
def cleanBill (b : Bill) : Prop :=
  cleanStr b.vendor = true ∧ cleanStr b.ref_num = true ∧
  cleanStr b.date = true ∧ cleanStr b.due_date = true ∧
  cleanStr b.terms = true ∧
  ∀ l ∈ b.lines, cleanStr l.item = true ∧ cleanStr l.description = true

/-- C6 (amended): (i) every bill produced by the CSV parser has only
interchange-safe field values — no raw tab, newline, CR or double quote —
given date backends that emit clean text; (ii) for bills with clean
fields (and clean account names and numeric formatters), the exporter
module's interchange file contains CRLF line breaks only.  The in-server
legacy generator joins rows with bare LF (see the counterexample), so the
CRLF property holds for the exporter path, not for every producer. -/
theorem bills_iif_sanitized_and_crlf :
    (∀ (fmtDate : Option String → String) (dueD : String → String → String)
      (records : List Row) (vc rc ic qc cc : String) (bs : List Bill),
      resolvePoCols records = .ok (vc, rc, ic, qc, cc) →
      (∀ o, cleanStr (fmtDate o) = true) →
      (∀ d t, cleanStr (dueD d t) = true) →
      parseBills fmtDate dueD records = .ok bs →
      ∀ b ∈ bs, cleanBill b) ∧
    (∀ (apAcc invAcc : String) (toF numS : ℚ → String) (bills : List Bill),
      cleanStr apAcc = true → cleanStr invAcc = true →
      (∀ q, cleanStr (toF q) = true) → (∀ q, cleanStr (numS q) = true) →
      (∀ b ∈ bills, cleanBill b) →
      crlfOnly (generateBillsIif apAcc invAcc toF numS bills).toList = true) := by
  constructor
  · intro fmtDate dueD records vc rc ic qc cc bs hcols hfmt hdue hok b hb
    rw [parseBills] at hok
    split at hok
    · exact absurd hok (by simp)
    · simp only [hcols] at hok
      split at hok
      · exact absurd hok (by simp)
      · rw [Except.ok.injEq] at hok
        subst hok
        obtain ⟨p, hp, rfl⟩ := List.mem_map.mp hb
        obtain ⟨_, _, _, hsource⟩ :=
          poGroupFold_aux fmtDate vc rc records [] [] (by simp) (by simp)
            (by simp) (by simp)
        simp only [List.nil_append] at hsource
        obtain ⟨r0, _, hr0k⟩ := hsource p hp
        have hkey : p.1 = poRowKey fmtDate vc rc r0 :=
          poKeptKey_some_eq fmtDate vc rc r0 p.1 hr0k
        have hkclean : cleanStr p.1 = true := by
          rw [hkey]
          exact poRowKey_clean fmtDate vc rc r0 hfmt
        have hterms : cleanStr (if inferTerms p.2 ≠ "" then inferTerms p.2
            else "Due upon receipt") = true := by
          by_cases ht : inferTerms p.2 ≠ ""
          · rw [if_pos ht]
            exact inferTerms_clean p.2
          · rw [if_neg ht]
            rfl
        refine ⟨?_, ?_, ?_, ?_, ?_, ?_⟩
        · rw [mkPoBill_vendor]
          exact splitOnBars_getD_clean p.1 0 hkclean
        · rw [mkPoBill_ref]
          exact splitOnBars_getD_clean p.1 1 hkclean
        · rw [mkPoBill_date]
          exact splitOnBars_getD_clean p.1 2 hkclean
        · rw [mkPoBill_due]
          exact hdue _ _
        · rw [mkPoBill_terms]
          exact hterms
        · rw [mkPoBill_lines]
          intro l hl
          obtain ⟨r, _, rfl⟩ := List.mem_map.mp hl
          exact ⟨sanitize_clean _, sanitize_clean _⟩
  · intro apAcc invAcc toF numS bills hap hinv htf hns hb
    rw [generateBillsIif]
    apply crlfOnly_join
    intro s hs
    rw [iifBillRows] at hs
    rcases List.mem_append.mp hs with hhead | hbody
    · fin_cases hhead
      · decide
      · decide
      · decide
    · obtain ⟨inner, hinner, hsin⟩ := List.mem_flatten.mp hbody
      obtain ⟨b, hbmem, rfl⟩ := List.mem_map.mp hinner
      obtain ⟨hv, hr, hd, hdd, ht, hlns⟩ := hb b hbmem
      rcases List.mem_cons.mp hsin with rfl | hrest
      · apply noCRLF_tabJoin
        intro f hf
        fin_cases hf
        · decide
        · decide
        · decide
        · exact noCRLF_of_clean _ hd
        · exact noCRLF_of_clean _ hap
        · exact noCRLF_of_clean _ hv
        · decide
        · exact noCRLF_append _ _ (by decide) (noCRLF_of_clean _ (htf _))
        · exact noCRLF_of_clean _ hr
        · decide
        · decide
        · decide
        · decide
        · exact noCRLF_of_clean _ hdd
        · exact noCRLF_of_clean _ ht
      · rcases List.mem_append.mp hrest with hspl | hend
        · obtain ⟨l, hlmem, rfl⟩ := List.mem_map.mp hspl
          obtain ⟨hitem, hdesc⟩ := hlns l hlmem
          apply noCRLF_tabJoin
          intro f hf
          fin_cases hf
          · decide
          · decide
          · decide
          · exact noCRLF_of_clean _ hd
          · exact noCRLF_of_clean _ hinv
          · decide
          · decide
          · exact noCRLF_of_clean _ (htf _)
          · decide
          · exact noCRLF_of_clean _ hdesc
          · decide
          · rw [qtyStr]
            by_cases hq : l.quantity = 0
            · rw [if_pos hq]
              rfl
            · rw [if_neg hq]
              exact noCRLF_of_clean _ (hns _)
          · exact noCRLF_of_clean _ (htf _)
          · exact noCRLF_of_clean _ hitem
        · have : s = "ENDTRNS" := by simpa using hend
          subst this
          decide

/-- A constant `toFixed(2)` stand-in for witnesses. -/
def demoFixed : ℚ → String := fun _ => "0.00"

/-- A constant `String(quantity)` stand-in for witnesses. -/
def demoNum : ℚ → String := fun _ => "1"

/-- A bill with interchange-safe fields. -/
def demoIifBill : Bill :=
  { vendor := "Acme", ref_num := "PO-1", date := "01/05/2024",
    total_amount := 30, due_date := "01/05/2024", terms := "Net 30",
    lines := [⟨"Widget", "widget desc", 10, 5 / 2, 25⟩] }

/-- C6 (counterexample): the in-server bills generator `generateIif`
behind `/api/export-iif` joins rows with bare LF: its output contains
line feeds but not a single carriage return, so not every bills
interchange file uses CRLF line endings. -/
theorem bills_iif_crlf_claim_false :
    crlfOnly (generateIif demoFixed demoNum [demoIifBill]).toList = false ∧
    '\n' ∈ (generateIif demoFixed demoNum [demoIifBill]).toList ∧
    '\r' ∉ (generateIif demoFixed demoNum [demoIifBill]).toList := by
  refine ⟨by decide, by decide, by decide⟩

/-- C6 witness: the amended theorem's CRLF part applied to a concrete
clean bill through the exporter-module generator. -/
theorem bills_iif_sanitized_and_crlf_witness :
    crlfOnly (generateBillsIif "Accounts Payable" "Inventory Asset"
      demoFixed demoNum [demoIifBill]).toList = true := by
  apply bills_iif_sanitized_and_crlf.2 "Accounts Payable" "Inventory Asset"
    demoFixed demoNum [demoIifBill] (by decide) (by decide)
  · intro q
    show cleanStr "0.00" = true
    decide
  · intro q
    show cleanStr "1" = true
    decide
  · intro b hb
    have : b = demoIifBill := by simpa using hb
    subst this
    show cleanBill demoIifBill
    refine ⟨by decide, by decide, by decide, by decide, by decide, ?_⟩
    intro l hl
    have : l = ⟨"Widget", "widget desc", 10, 5 / 2, 25⟩ := by
      simpa [demoIifBill] using hl
    subst this
    exact ⟨by decide, by decide⟩

end CsvToQb
